import Mathlib

/-!
Verification of the FNL pipeline core (land-fnl-ml).

This file gives a shallow embedding of the deterministic core of the
repository: the safety filter (src/safety.py), the normalizer and course
segmentation (src/normalizer.py), the schema-repair passes and validation
entry points (src/validator.py), the renderer (src/formatter.py) and the
orchestrator (src/pipeline.py).  Python dictionaries, lists and scalars are
embedded as the inductive type `JVal`; Python code that can raise is
embedded as `Except String`-valued functions, the error string naming the
exception class.  In-place mutation of dictionaries is embedded by value
passing: each pass returns the final state of the (unique) document it
mutates, which is also its Python return value.  Python dictionaries have
unique keys and preserve insertion order; the update operations below
(`setKV`, `eraseKV`) are therefore order-preserving and canonicalize away
duplicate keys, which is invisible on any state a Python run can produce.
-/

/-- Embedding of Python JSON-like values (dict / list / str / int / bool /
None) as manipulated by the pipeline. -/
inductive JVal where
  | null
  | bool (b : Bool)
  | int (n : Int)
  | str (s : String)
  | arr (elems : List JVal)
  | obj (entries : List (String × JVal))

/-- First value bound to a key in a Python dict (keys are unique, so the
first occurrence is the only one). -/
def lookupKV : List (String × JVal) → String → Option JVal
  | [], _ => none
  | (k', v) :: t, k => if k' = k then some v else lookupKV t k

/-- Key-membership test for a Python dict (`k in d`). -/
def containsKV : List (String × JVal) → String → Bool
  | [], _ => false
  | (k', _) :: t, k => k' = k || containsKV t k

/-- Python `d.pop(k, None)`: removes the key.  Removes every occurrence,
which coincides with Python on the unique-key states Python produces. -/
def eraseKV : List (String × JVal) → String → List (String × JVal)
  | [], _ => []
  | (k', v) :: t, k => if k' = k then eraseKV t k else (k', v) :: eraseKV t k

/-- Python `d[k] = v`: replaces the value at an existing key in place
(keeping its position), appends a fresh key at the end.  Canonicalizes away
later duplicates of the key, which is invisible on unique-key states. -/
def setKV : List (String × JVal) → String → JVal → List (String × JVal)
  | [], k, v => [(k, v)]
  | (k', v') :: t, k, v => if k' = k then (k, v) :: eraseKV t k else (k', v') :: setKV t k v

/-- Python truthiness of an embedded value. -/
def pyTruthy : JVal → Bool
  | .null => false
  | .bool b => b
  | .int n => n != 0
  | .str s => !s.isEmpty
  | .arr xs => !xs.isEmpty
  | .obj kvs => !kvs.isEmpty

/-- Elementwise effectful map, propagating the first raised exception. -/
def mapE {α β : Type} (f : α → Except String β) : List α → Except String (List β)
  | [] => .ok []
  | a :: l =>
    match f a with
    | .error e => .error e
    | .ok b =>
      match mapE f l with
      | .error e => .error e
      | .ok bs => .ok (b :: bs)

/-! ## Safety filter (src/safety.py)

The eight forbidden-term patterns of `NG_PATTERNS`.  Seven are literal
substrings; `\bJR\b` is the literal `JR` constrained by word boundaries.
`re.search` scans for the leftmost occurrence; only its existence and the
matched text (`group(0)`, which for these patterns is the literal itself)
are observable below. -/

/-- A forbidden-term pattern: a literal substring, or a word-boundary
delimited literal (`\bJR\b`). -/
inductive NGPattern where
  | lit (s : String)
  | wordBounded (s : String)
deriving Repr, DecidableEq

/-- Matches one step of a literal: returns the remaining text when the
pattern is an initial segment of the text. -/
def dropExact : List Char → List Char → Option (List Char)
  | [], cs => some cs
  | _ :: _, [] => none
  | p :: ps, c :: cs => if c = p then dropExact ps cs else none

/-- Existence of a literal substring occurrence (`re.search` on a literal
pattern). -/
def litFound (pat : List Char) : List Char → Bool
  | [] => (dropExact pat []).isSome
  | c :: t => (dropExact pat (c :: t)).isSome || litFound pat t

/-- Word characters for the `\b` boundaries: ASCII alphanumerics and
underscore, plus the Japanese script ranges (hiragana, katakana, CJK
ideographs) occurring in this code base's data, which are word characters
for Python's Unicode `\b`. -/
def isWordChar (c : Char) : Bool :=
  c.isAlpha || c.isDigit || c = '_' ||
  (0x3040 ≤ c.toNat && c.toNat ≤ 0x30FF) || (0x4E00 ≤ c.toNat && c.toNat ≤ 0x9FFF)

/-- Occurrence of a word-boundary delimited literal; `prev` is the
character immediately before the current position. -/
def wordFoundAux (w : List Char) (prev : Option Char) : List Char → Bool
  | [] => false
  | c :: t =>
    (match dropExact w (c :: t) with
     | some rest =>
       (match prev with
        | none => true
        | some p => !isWordChar p) &&
       (match rest with
        | [] => true
        | n :: _ => !isWordChar n)
     | none => false) || wordFoundAux w (some c) t

/-- Existence of a match of one forbidden-term pattern in the text. -/
def ngSearch (p : NGPattern) (text : List Char) : Bool :=
  match p with
  | .lit s => litFound s.data text
  | .wordBounded s => wordFoundAux s.data none text

/-- The text returned by `m.group(0)` for a match of the pattern: the
literal itself for both pattern forms used here. -/
def ngGroup0 : NGPattern → String
  | .lit s => s
  | .wordBounded s => s

/-- NG_PATTERNS (safety.py lines 10-19), in source order. -/
def NG_PATTERNS : List NGPattern :=
  [.lit "座席", .lit "並び席", .lit "保険", .lit "返金", .lit "金銭",
   .lit "旅券", .wordBounded "JR", .lit "社内進行"]

/-- contains_ng_terms (safety.py lines 22-26): true when some forbidden
pattern matches the text. -/
def contains_ng_terms (text : String) : Bool :=
  NG_PATTERNS.any (fun p => ngSearch p text.data)

/-- find_all_ng_terms (safety.py lines 29-38): the matched text of every
pattern that matches, in pattern order. -/
def find_all_ng_terms (text : String) : List String :=
  (NG_PATTERNS.filter (fun p => ngSearch p text.data)).map ngGroup0

/-- Literal substring containment between strings, used to state claims
about rendered text. -/
def containsSub (needle hay : String) : Bool :=
  litFound needle.data hay.data

/-! ## Normalizer (src/normalizer.py)

`normalize_lines` canonicalizes raw text and returns the cleaned line list;
`find_course_blocks` segments lines into per-course blocks. -/

/-- Model of NFKC (`unicodedata.normalize("NFKC", s)`, normalizer.py z2h) on
one character: fullwidth ASCII forms fold to ASCII, the ideographic space
folds to a space.  Characters outside these ranges that occur in this
development's data (ASCII, kana, CJK ideographs) are NFKC-invariant and are
kept unchanged. -/
def nfkcChar (c : Char) : Char :=
  if 0xFF01 ≤ c.toNat && c.toNat ≤ 0xFF5E then Char.ofNat (c.toNat - 0xFEE0)
  else if c.toNat = 0x3000 then ' '
  else c

/-- z2h (normalizer.py lines 10-14): NFKC width normalization. -/
def z2h (s : List Char) : List Char := s.map nfkcChar

/-- Newline unification (normalizer.py line 29): CRLF and CR become LF. -/
def unifyNewlines : List Char → List Char
  | [] => []
  | '\r' :: '\n' :: t => '\n' :: unifyNewlines t
  | '\r' :: t => '\n' :: unifyNewlines t
  | c :: t => c :: unifyNewlines t

/-- Replaces every maximal run of characters satisfying `p` by the single
character `rep`; the flag records whether we are inside a run.  Models
`re.sub(pattern+, rep, s)`. -/
def subRuns (p : Char → Bool) (rep : Char) : Bool → List Char → List Char
  | _, [] => []
  | inRun, c :: t =>
    if p c then
      if inRun then subRuns p rep true t else rep :: subRuns p rep true t
    else c :: subRuns p rep false t

/-- Caps runs of newlines at two (normalizer.py line 36, `\n{3,}` → two
newlines); `seen` counts the newlines already emitted in the current run. -/
def capNLAux : Nat → List Char → List Char
  | _, [] => []
  | seen, c :: t =>
    if c = '\n' then
      if seen ≥ 2 then capNLAux seen t else '\n' :: capNLAux (seen + 1) t
    else c :: capNLAux 0 t

/-- White-space characters for Python `str.strip()` and `\s`, restricted to
the ASCII white-space set plus the no-break and ideographic spaces; other
Unicode spaces do not occur in the modelled data. -/
def isPySpace (c : Char) : Bool :=
  c = ' ' || c = '\t' || c = '\n' || c = '\r' || c = '\x0b' || c = '\x0c' ||
  c.toNat = 0xA0 || c.toNat = 0x3000

/-- Python `s.split("\n")`. -/
def splitNL : List Char → List (List Char)
  | [] => [[]]
  | c :: t =>
    if c = '\n' then [] :: splitNL t
    else
      match splitNL t with
      | [] => [[c]]
      | l :: rest => (c :: l) :: rest

/-- Python `s.strip()` over the modelled white-space set. -/
def stripChars (l : List Char) : List Char :=
  ((l.dropWhile isPySpace).reverse.dropWhile isPySpace).reverse

/-- Decorative-rule test (normalizer.py line 43): the whole line is four or
more dashes, underscores or equals signs (`re.fullmatch(r"[-_=]{4,}")`). -/
def isDecorative (l : List Char) : Bool :=
  decide (4 ≤ l.length) && l.all (fun c => c = '-' || c = '_' || c = '=')

/-- Case-insensitive literal step: like `dropExact` but comparing ASCII
letters case-insensitively (`re.I`). -/
def dropExactCaseless : List Char → List Char → Option (List Char)
  | [], cs => some cs
  | _ :: _, [] => none
  | p :: ps, c :: cs => if c.toLower = p.toLower then dropExactCaseless ps cs else none

/-- Page-marker match at the current position (`Page \d+/\d+`, re.I). -/
def pageMarkerAt (cs : List Char) : Bool :=
  match dropExactCaseless "Page".data cs with
  | some rest =>
    match rest with
    | ' ' :: r1 =>
      (match r1 with
       | d :: _ => d.isDigit
       | [] => false) &&
      (match r1.dropWhile Char.isDigit with
       | '/' :: r3 =>
         match r3 with
         | d :: _ => d.isDigit
         | [] => false
       | _ => false)
    | _ => false
  | none => false

/-- Search for a page marker anywhere in the line (normalizer.py line 46). -/
def pageMarkerFound : List Char → Bool
  | [] => pageMarkerAt []
  | c :: t => pageMarkerAt (c :: t) || pageMarkerFound t

/-- normalize_lines (normalizer.py lines 17-51): NFKC, newline unification,
horizontal-space collapsing, newline capping, split, strip, and removal of
empty, decorative and page-marker lines. -/
def normalize_lines (raw : String) : List String :=
  let s := z2h raw.data
  let s := unifyNewlines s
  let s := subRuns (fun c => c = ' ' || c = '\t') ' ' false s
  let s := subRuns (fun c => c.toNat = 0x3000) ' ' false s
  let s := capNLAux 0 s
  let lines := ((splitNL s).map stripChars).filter (fun l => !l.isEmpty)
  (lines.filter (fun l => !isDecorative l && !pageMarkerFound l)).map String.mk

/-- A per-course block as built by find_course_blocks: course number, the
(start, end) period pair, and the block's lines. -/
structure CourseBlock where
  courseNo : String
  period : String × String
  lines : List String
deriving Repr, DecidableEq

/-- Tail of a course-identifier match after the label: an optional single
colon (ASCII or fullwidth), then white space, then a non-empty maximal run
of `[A-Za-z0-9-]`, which is capture group 2. -/
def courseTokenAfter (cs : List Char) : Option (List Char) :=
  let cs1 := match cs with
    | c :: t => if c = ':' || c = '：' then t else cs
    | [] => cs
  let tok := (cs1.dropWhile isPySpace).takeWhile (fun c => c.isAlpha || c.isDigit || c = '-')
  if tok.isEmpty then none else some tok

/-- Course-identifier match at the current position
(`(コースNo|Course)[:：]?\s*([A-Za-z0-9\-]+)`, normalizer.py line 80). -/
def courseMatchAt (cs : List Char) : Option (List Char) :=
  match dropExact "コースNo".data cs with
  | some rest => courseTokenAfter rest
  | none =>
    match dropExact "Course".data cs with
    | some rest => courseTokenAfter rest
    | none => none

/-- Leftmost course-identifier match (`re.search`), returning group 2. -/
def courseSearch : List Char → Option (List Char)
  | [] => courseMatchAt []
  | c :: t =>
    match courseMatchAt (c :: t) with
    | some tok => some tok
    | none => courseSearch t

/-- Course-number extraction from one line. -/
def courseMatch (ln : String) : Option String :=
  (courseSearch ln.data).map String.mk

/-- Date match (`\d{4}-\d{2}-\d{2}`) at the current position: the ten
matched characters and the rest. -/
def dateAt (cs : List Char) : Option (List Char × List Char) :=
  match cs with
  | c1 :: c2 :: c3 :: c4 :: h1 :: c5 :: c6 :: h2 :: c7 :: c8 :: rest =>
    if c1.isDigit && c2.isDigit && c3.isDigit && c4.isDigit && h1 = '-' &&
       c5.isDigit && c6.isDigit && h2 = '-' && c7.isDigit && c8.isDigit then
      some ([c1, c2, c3, c4, h1, c5, c6, h2, c7, c8], rest)
    else none
  | _ => none

/-- Leftmost date match whose gap from the first date contains no newline
(the non-greedy `.*?` of the period pattern cannot cross a newline). -/
def dateSearchNoNL : List Char → Option (List Char)
  | [] => none
  | c :: t =>
    match dateAt (c :: t) with
    | some (d, _) => some d
    | none => if c = '\n' then none else dateSearchNoNL t

/-- Leftmost match of the period pattern
(`(\d{4}-\d{2}-\d{2}).*?(\d{4}-\d{2}-\d{2})`, normalizer.py line 94):
group 1 is the earliest date followed by another date, group 2 the nearest
following date. -/
def periodSearch : List Char → Option (List Char × List Char)
  | [] => none
  | c :: t =>
    match dateAt (c :: t) with
    | some (d1, rest) =>
      match dateSearchNoNL rest with
      | some d2 => some (d1, d2)
      | none => periodSearch t
    | none => periodSearch t

/-- Period extraction from one line: the (start, end) pair of the leftmost
period match. -/
def periodMatch (ln : String) : Option (String × String) :=
  (periodSearch ln.data).map (fun p => (String.mk p.1, String.mk p.2))

/-- Loop body of find_course_blocks (normalizer.py lines 78-108): `cur` is
the block accumulator; a course line seals the previous identified block
and starts a new one; a period line overwrites the period of the current
identified block; each line is appended to the current identified block. -/
def fcbLoop (cur : CourseBlock) : List String → List CourseBlock
  | [] => if cur.courseNo ≠ "" ∧ cur.lines ≠ [] then [cur] else []
  | ln :: rest =>
    let sl : List CourseBlock × CourseBlock :=
      match courseMatch ln with
      | some cno => ((if cur.courseNo = "" then [] else [cur]), ⟨cno, ("", ""), []⟩)
      | none => ([], cur)
    let cur1 := sl.2
    let cur2 :=
      match periodMatch ln with
      | some pe => if cur1.courseNo = "" then cur1 else { cur1 with period := pe }
      | none => cur1
    let cur3 := if cur2.courseNo = "" then cur2 else { cur2 with lines := cur2.lines ++ [ln] }
    sl.1 ++ fcbLoop cur3 rest

/-- find_course_blocks (normalizer.py lines 54-110). -/
def find_course_blocks (lines : List String) : List CourseBlock :=
  fcbLoop ⟨"", ("", ""), []⟩ lines

/-! ## Schema repair passes (src/validator.py)

Each Python pass mutates the document in place and returns it; the
embedding returns the final state.  Raised exceptions are `.error` values
naming the exception. -/

/-- Python `d.get(k)` restricted to a dict value: the bound value, if any. -/
def pyLookup (v : JVal) (k : String) : Option JVal :=
  match v with
  | .obj kvs => lookupKV kvs k
  | _ => none

/-- Python `k in d` on a dict value. -/
def pyContains (v : JVal) (k : String) : Bool :=
  match v with
  | .obj kvs => containsKV kvs k
  | _ => false

/-- Python `d[k] = v` on a dict value (identity on non-dicts, which never
occurs below). -/
def pySet (v : JVal) (k : String) (w : JVal) : JVal :=
  match v with
  | .obj kvs => .obj (setKV kvs k w)
  | _ => v

/-- Python `d.pop(k, None)` on a dict value. -/
def pyErase (v : JVal) (k : String) : JVal :=
  match v with
  | .obj kvs => .obj (eraseKV kvs k)
  | _ => v

/-- Python `x or ""`. -/
def pyOrEmptyStr (v : JVal) : JVal :=
  if pyTruthy v then v else .str ""

/-- The NameError raised because the helper `to_str` referenced by
normalize_text_fields (validator.py lines 118, 120, 122, 149) is not
defined anywhere in the repository. -/
def toStrNameError : String := "NameError: name 'to_str' is not defined"

/-- The characters yielded by iterating a string, as one-character string
values. -/
def strElems (s : String) : List JVal :=
  s.data.map (fun c => JVal.str (String.mk [c]))

/-- The keys yielded by iterating a dict, as string values. -/
def keyElems (okvs : List (String × JVal)) : List JVal :=
  okvs.map (fun kv => JVal.str kv.1)

/-- Models the Python idiom `for x in (d.get(key, []) or [])` followed by
in-place mutation of each element by the loop body `f`, as used by the
repair passes.  `useOr` selects whether the `or []` coercion of falsy
values is present.  A list is mapped elementwise and the mutated elements
written back; iterating a string or a dict yields fresh string elements
(characters resp. keys) whose transformation cannot affect the container,
so only an exception from the body is observable; a truthy non-iterable
raises TypeError; a non-dict receiver raises AttributeError (it has no
`.get`). -/
def mapListField (useOr : Bool) (key : String) (f : JVal → Except String JVal)
    (d : JVal) : Except String JVal :=
  match d with
  | .obj kvs =>
    match lookupKV kvs key with
    | none => .ok d
    | some v =>
      if useOr && !pyTruthy v then .ok d
      else
        match v with
        | .arr xs =>
          (match mapE f xs with
           | .ok ys => .ok (.obj (setKV kvs key (.arr ys)))
           | .error e => .error e)
        | .str s =>
          (match mapE f (strElems s) with
           | .ok _ => .ok d
           | .error e => .error e)
        | .obj okvs =>
          (match mapE f (keyElems okvs) with
           | .ok _ => .ok d
           | .error e => .error e)
        | _ => .error "TypeError"
  | _ => .error "AttributeError"

/-- The participants hoist of normalize_course_structure (validator.py
lines 50-53): when a dict-valued `period` contains `participants` and the
course does not, the entry is popped from the period and assigned at the
course level (a fresh key, appended at the end). -/
def ncsHoist (kvs : List (String × JVal)) : List (String × JVal) :=
  match lookupKV kvs "period" with
  | some (.obj pkvs) =>
    if containsKV pkvs "participants" && !containsKV kvs "participants" then
      setKV (setKV kvs "period" (.obj (eraseKV pkvs "participants")))
        "participants" ((lookupKV pkvs "participants").getD .null)
    else kvs
  | _ => kvs

/-- The dict read as `period_obj = course.get("period") or {}`
(validator.py line 57): `none` encodes the AttributeError raised when the
period value is truthy but not a dict. -/
def ncsPeriodObj (kvs : List (String × JVal)) : Option (List (String × JVal)) :=
  match lookupKV kvs "period" with
  | none => some []
  | some v =>
    if pyTruthy v then
      match v with
      | .obj pk => some pk
      | _ => none
    else some []

/-- One alias pair of normalize_course_structure (validator.py lines
68-79): reads the alias keys, lets the first truthy value win per
still-empty field, and pops both alias keys. -/
def ncsAliasStep (sk ek : String) (st : List (String × JVal) × JVal × JVal) :
    List (String × JVal) × JVal × JVal :=
  let s := (lookupKV st.1 sk).getD .null
  let e := (lookupKV st.1 ek).getD .null
  let sv := if pyTruthy s && !pyTruthy st.2.1 then s else st.2.1
  let ev := if pyTruthy e && !pyTruthy st.2.2 then e else st.2.2
  (eraseKV (eraseKV st.1 sk) ek, sv, ev)

/-- The three alias pairs in source order (validator.py lines 62-66). -/
def ncsAliases (kvs : List (String × JVal)) (sv ev : JVal) :
    List (String × JVal) × JVal × JVal :=
  ncsAliasStep "startDate" "endDate"
    (ncsAliasStep "periodStart" "periodEnd"
      (ncsAliasStep "periodFrom" "periodTo" (kvs, sv, ev)))

/-- The final period rewrite of normalize_course_structure (validator.py
lines 81-86): when a truthy start or end was collected, the `period` key is
rewritten with the pair (falsy components become the empty string). -/
def ncsFinish (st : List (String × JVal) × JVal × JVal) : Except String JVal :=
  if pyTruthy st.2.1 || pyTruthy st.2.2 then
    .ok (.obj (setKV st.1 "period"
      (.obj [("start", pyOrEmptyStr st.2.1), ("end", pyOrEmptyStr st.2.2)])))
  else .ok (.obj st.1)

/-- Course body of normalize_course_structure (validator.py lines 49-86):
hoists `participants` out of a dict-valued `period`, folds the period
aliases (first truthy value wins per field), pops the alias keys, and
rewrites `period` when a truthy start or end was found.  A truthy non-dict
`period` raises AttributeError at `period_obj.get`. -/
def ncsCourse (course : JVal) : Except String JVal :=
  match course with
  | .obj kvs0 =>
    match ncsPeriodObj (ncsHoist kvs0) with
    | none => .error "AttributeError"
    | some pkvs =>
      ncsFinish (ncsAliases (ncsHoist kvs0)
        ((lookupKV pkvs "start").getD .null) ((lookupKV pkvs "end").getD .null))
  | _ => .error "AttributeError"

/-- normalize_course_structure (validator.py lines 38-88). -/
def normalize_course_structure (doc : JVal) : Except String JVal :=
  mapListField false "courses" ncsCourse doc

/-- Loop body of clean_optionalrq_status over one optionalRQ entry
(validator.py lines 104-106): pops `status` from dict entries, skips
non-dict entries. -/
def cleanOp (op : JVal) : Except String JVal :=
  .ok (match op with
    | .obj kvs => if containsKV kvs "status" then .obj (eraseKV kvs "status") else op
    | _ => op)

/-- Participant body of clean_optionalrq_status (validator.py lines
103-106). -/
def cleanParticipant (p : JVal) : Except String JVal :=
  mapListField true "optionalRQ" cleanOp p

/-- Course body of clean_optionalrq_status (validator.py lines 101-106). -/
def cleanCourse (c : JVal) : Except String JVal :=
  mapListField true "participants" cleanParticipant c

/-- clean_optionalrq_status (validator.py lines 91-107). -/
def clean_optionalrq_status (doc : JVal) : Except String JVal :=
  mapListField false "courses" cleanCourse doc

/-- One entry of the airline key_map loop of normalize_text_fields
(validator.py lines 138-143): moves `sk` to `dk` when only `sk` is
present (appending `dk` at the end), otherwise pops `sk`. -/
def airlineKeyMapStep (sk dk : String) (al : List (String × JVal)) :
    List (String × JVal) :=
  if containsKV al sk && !containsKV al dk then
    setKV (eraseKV al sk) dk ((lookupKV al sk).getD .null)
  else eraseKV al sk

/-- The closed airline key set (validator.py line 146). -/
def allowedAirlineKey (k : String) : Bool :=
  k = "meal" || k = "assist" || k = "carryOn" || k = "arrivalImpact"

/-- The airline key_map loop of normalize_text_fields (validator.py lines
131-143), the five alias entries applied in source order. -/
def ntfAirline (al0 : List (String × JVal)) : List (String × JVal) :=
  airlineKeyMapStep "impact" "arrivalImpact"
    (airlineKeyMapStep "luggage" "carryOn"
      (airlineKeyMapStep "baggage" "carryOn"
        (airlineKeyMapStep "support" "assist"
          (airlineKeyMapStep "assistance" "assist" al0))))

/-- Participant body of normalize_text_fields (validator.py lines
116-151).  Every call of the undefined helper `to_str` raises NameError:
for each of the keys meal_allergy / medical / scheduleImpact when present,
and for the first remaining airline key in the closed set.  A dict airline
with no key in the closed set after key mapping has all its keys popped. -/
def ntfParticipant (p : JVal) : Except String JVal :=
  match p with
  | .obj kvs =>
    if containsKV kvs "meal_allergy" || containsKV kvs "medical" ||
       containsKV kvs "scheduleImpact" then
      .error toStrNameError
    else
      match lookupKV kvs "airline" with
      | some (.obj al0) =>
        if (ntfAirline al0).any (fun kv => allowedAirlineKey kv.1) then
          .error toStrNameError
        else .ok (.obj (setKV kvs "airline" (.obj [])))
      | _ => .ok p
  | .str _ => .error "AttributeError"
  | .arr _ => .error "AttributeError"
  | _ => .error "TypeError"

/-- Course body of normalize_text_fields (validator.py lines 114-151). -/
def ntfCourse (c : JVal) : Except String JVal :=
  mapListField true "participants" ntfParticipant c

/-- normalize_text_fields (validator.py lines 110-153). -/
def normalize_text_fields (doc : JVal) : Except String JVal :=
  mapListField false "courses" ntfCourse doc

/-- Python `s.isdigit()` restricted to ASCII digits (the only digits in the
modelled data), together with non-emptiness. -/
def isDigitStr (s : String) : Bool :=
  !s.isEmpty && s.data.all Char.isDigit

/-- Python `int(s)` on an all-digit string. -/
def strToInt (s : String) : Int :=
  Int.ofNat (s.data.foldl (fun n c => n * 10 + (c.toNat - 48)) 0)

/-- Loop body of coerce_numeric_fields over one optionalRQ entry
(validator.py lines 30-33): coerces an all-digit string `pax` to an
integer; a non-dict entry raises at `op.get`. -/
def coerceOp (op : JVal) : Except String JVal :=
  match op with
  | .obj kvs =>
    match lookupKV kvs "pax" with
    | some (.str s) =>
      if isDigitStr s then .ok (.obj (setKV kvs "pax" (.int (strToInt s)))) else .ok op
    | _ => .ok op
  | _ => .error "AttributeError"

/-- The `no` step of coerce_numeric_fields (validator.py lines 25-27):
coerces an all-digit string `no` to an integer. -/
def coerceNo (kvs : List (String × JVal)) : List (String × JVal) :=
  match lookupKV kvs "no" with
  | some (.str s) => if isDigitStr s then setKV kvs "no" (.int (strToInt s)) else kvs
  | _ => kvs

/-- Participant body of coerce_numeric_fields (validator.py lines 24-33):
coerces an all-digit string `no` to an integer, then handles the
optionalRQ entries. -/
def coerceParticipant (p : JVal) : Except String JVal :=
  match p with
  | .obj kvs => mapListField true "optionalRQ" coerceOp (.obj (coerceNo kvs))
  | _ => .error "AttributeError"

/-- Course body of coerce_numeric_fields (validator.py lines 21-33). -/
def coerceCourse (c : JVal) : Except String JVal :=
  mapListField true "participants" coerceParticipant c

/-- coerce_numeric_fields (validator.py lines 14-35). -/
def coerce_numeric_fields (doc : JVal) : Except String JVal :=
  mapListField false "courses" coerceCourse doc

/-- The ordered repair sequence applied by validate_schema and
is_schema_valid (validator.py lines 174-177 and 190-193): structure
normalization, optionalRQ status cleanup, text-field normalization,
numeric coercion.  The passes mutate the document in place, so the result
is also the final state of the caller's document. -/
def repairSeq (doc : JVal) : Except String JVal :=
  match normalize_course_structure doc with
  | .error e => .error e
  | .ok d1 =>
    match clean_optionalrq_status d1 with
    | .error e => .error e
    | .ok d2 =>
      match normalize_text_fields d2 with
      | .error e => .error e
      | .ok d3 => coerce_numeric_fields d3

/-! ## Validation entry points (src/validator.py lines 156-199)

The jsonschema validator and the schema file pack/EXTRACT_SCHEMA.json are
outside the modelled sources; per the specification the schema file is an
external persisted artifact whose absence puts validation into a
permissive no-op mode.  They are abstracted by a `loaded` flag and a
`check` predicate (the jsonschema conformance test, which reads but never
writes the document). -/

/-- validate_schema (validator.py lines 165-179): a no-op without a loaded
schema; otherwise applies the four repair passes to the caller's document
in place and then checks it.  The returned value is the final state of the
caller's document; a failed conformance check raises ValidationError. -/
def validate_schema (check : JVal → Bool) (loaded : Bool) (doc : JVal) :
    Except String JVal :=
  if loaded then
    match repairSeq doc with
    | .error e => .error e
    | .ok d => if check d then .ok d else .error "ValidationError"
  else .ok doc

/-- is_schema_valid (validator.py lines 182-199): same repairs and check,
returning the verdict instead of raising on nonconformance; the second
component is the final state of the caller's document. -/
def is_schema_valid (check : JVal → Bool) (loaded : Bool) (doc : JVal) :
    Except String (Bool × JVal) :=
  if loaded then
    match repairSeq doc with
    | .error e => .error e
    | .ok d => .ok (check d, d)
  else .ok (true, doc)

/-! ## Renderer (src/formatter.py) -/

/-- Python `str(v)` on the embedded values.  Scalars are rendered exactly;
the repr of containers (never exercised by any claim) is abbreviated. -/
def pyStr : JVal → String
  | .str s => s
  | .int n => toString n
  | .bool b => if b then "True" else "False"
  | .null => "None"
  | .arr _ => "[…]"
  | .obj _ => "\x7b…\x7d"

/-- _safe (formatter.py lines 8-10): None becomes the empty string. -/
def pySafe : JVal → String
  | .null => ""
  | v => pyStr v

/-- Python `v.get(k)` with an AttributeError on non-dict receivers. -/
def pyGetAttr (v : JVal) (k : String) : Except String JVal :=
  match v with
  | .obj kvs => .ok ((lookupKV kvs k).getD .null)
  | _ => .error "AttributeError"

/-- Python `v.get(k, d)` with an AttributeError on non-dict receivers. -/
def pyGetAttrD (v : JVal) (k : String) (d : JVal) : Except String JVal :=
  match v with
  | .obj kvs => .ok ((lookupKV kvs k).getD d)
  | _ => .error "AttributeError"

/-- Elements yielded by `for x in v`: list elements, string characters (as
one-character strings), dict keys; None, numbers and booleans are not
iterable. -/
def pyIter (v : JVal) : Except String (List JVal) :=
  match v with
  | .arr xs => .ok xs
  | .str s => .ok (s.data.map (fun c => JVal.str (String.mk [c])))
  | .obj kvs => .ok (kvs.map (fun kv => JVal.str kv.1))
  | _ => .error "TypeError"

/-- The strings of a list value, when every element is a string. -/
def allStrs : List JVal → Option (List String)
  | [] => some []
  | .str s :: t => (allStrs t).map (fun ss => s :: ss)
  | _ => none

/-- Python `sep.join(v)`: joins list elements (TypeError on a non-string
element), string characters, or dict keys. -/
def pyJoin (sep : String) (v : JVal) : Except String String :=
  match v with
  | .arr xs =>
    (match allStrs xs with
     | some ss => .ok (String.intercalate sep ss)
     | none => .error "TypeError")
  | .str s => .ok (String.intercalate sep (s.data.map (fun c => String.mk [c])))
  | .obj kvs => .ok (String.intercalate sep (kvs.map (fun kv => kv.1)))
  | _ => .error "TypeError"

/-- Python `x if pyTruthy x else dflt`, the `x or dflt` idiom. -/
def pyOr (v dflt : JVal) : JVal :=
  if pyTruthy v then v else dflt

/-- One participant of render_text (formatter.py lines 51-151): the
identity header and, only for truthy fields, one block per category, then
a blank separator line.  `cnoS` is the course number already rendered for
the header. -/
def renderParticipant (cnoS : String) (p : JVal) : Except String (List String) :=
  match p with
  | .obj kvs => do
    let getD := fun (k : String) (d : JVal) => (lookupKV kvs k).getD d
    let head := cnoS ++ " No." ++ pyStr (getD "no" (.str "")) ++ " " ++
      pyStr (getD "nameJP" (.str "")) ++ " / " ++ pyStr (getD "nameEN" (.str "")) ++
      "（問番:" ++ pyStr (getD "inquiryNo" (.str "")) ++ "）"
    let jt := pyOr (getD "joinType" .null) (.obj [])
    let meet := pyOr (← pyGetAttr jt "meet") (.obj [])
    let flight := pyOr (← pyGetAttr jt "flight") (.obj [])
    let transfer := pyOr (← pyGetAttr jt "transfer") (.str "")
    let placeS := pySafe (← pyGetAttr meet "place")
    let dtS := pySafe (← pyGetAttr meet "datetime")
    let arriveS := pySafe (← pyGetAttr flight "arrive")
    let departS := pySafe (← pyGetAttr flight "depart")
    let jtLines := if pyTruthy jt then
        ["- 参加形態: L/O（合流:" ++ placeS ++ "/" ++ dtS ++ " 送迎:" ++
         pySafe transfer ++ " 個人便:" ++ arriveS ++ "/" ++ departS ++ "）"]
      else []
    let roomingLines ←
      (if pyTruthy (getD "roomingRQ" .null) then do
        let j ← pyJoin " / " (getD "roomingRQ" .null)
        pure ["- ルーミング要望: " ++ j]
      else pure [])
    let opLines ←
      (if pyTruthy (getD "optionalRQ" .null) then do
        let elems ← pyIter (getD "optionalRQ" .null)
        mapE (fun op => do
          let dateV := pyOr (← pyGetAttr op "date") (.str "不明")
          let paxV := pyOr (← pyGetAttr op "pax") (.str "")
          let nameV ← pyGetAttrD op "name" (.str "")
          pure ("- オプショナル: " ++ pyStr nameV ++ " / RQ / " ++ pyStr dateV ++
            " / " ++ pyStr paxV ++ "名")) elems
      else pure [])
    let celebLines ←
      (if pyTruthy (getD "celebration" .null) then do
        let j ← pyJoin " / " (getD "celebration" .null)
        pure ["- 特別依頼: " ++ j]
      else pure [])
    let mealLines := if pyTruthy (getD "meal_allergy" .null) then
        ["- 食事・アレルギー: " ++ pyStr (getD "meal_allergy" .null)] else []
    let medicalLines := if pyTruthy (getD "medical" .null) then
        ["- 医療・介助: " ++ pyStr (getD "medical" .null)] else []
    let al := pyOr (getD "airline" .null) (.obj [])
    let alMeal ← pyGetAttr al "meal"
    let alAssist ← pyGetAttr al "assist"
    let alCarry ← pyGetAttr al "carryOn"
    let alImpact ← pyGetAttr al "arrivalImpact"
    let alPairs := [(alMeal, "機内食"), (alAssist, "搭乗支援"),
                    (alCarry, "機内持込"), (alImpact, "到着影響")]
    let alLines := if alPairs.any (fun vp => pyTruthy vp.1) then
        "- 航空会社関連:" ::
          (alPairs.filter (fun vp => pyTruthy vp.1)).map
            (fun vp => "  - " ++ vp.2 ++ ": " ++ pyStr vp.1)
      else []
    let schedLines := if pyTruthy (getD "scheduleImpact" .null) then
        ["- 日程・集合影響: " ++ pyStr (getD "scheduleImpact" .null)] else []
    let busLines := if pyTruthy (getD "busSeating" .null) then
        ["- バス座席/グループ: " ++ pyStr (getD "busSeating" .null)] else []
    let gs := pyOr (getD "gearSizes" .null) (.obj [])
    let gTop ← pyGetAttr gs "top"
    let gBottom ← pyGetAttr gs "bottom"
    let gShoes ← pyGetAttr gs "shoes"
    let gHeight ← pyGetAttr gs "height_cm"
    let gWeight ← pyGetAttr gs "weight_kg"
    let segs :=
      (if pyTruthy gTop then ["服のサイズ" ++ pyStr gTop] else []) ++
      (if pyTruthy gBottom then ["ズボン" ++ pyStr gBottom] else []) ++
      (if pyTruthy gShoes then ["靴" ++ pyStr gShoes] else []) ++
      (if pyTruthy gHeight then ["身長" ++ pyStr gHeight ++ "cm"] else []) ++
      (if pyTruthy gWeight then ["体重" ++ pyStr gWeight ++ "kg"] else [])
    let gearLines := if segs.isEmpty then [] else
        ["- 装備・レンタルサイズ: " ++ String.intercalate " " segs]
    let ogElems ← pyIter (pyOr (getD "otherGroup" .null) (.arr []))
    let ogLines ← mapE (fun og => do
        let rt ← pyGetAttr og "roomType"
        let room := if pyTruthy rt then " 同室=" ++ pyStr rt else ""
        let stV := pyOr (← pyGetAttr og "status") (.str "")
        let nameV ← pyGetAttrD og "name" (.str "")
        let inqV ← pyGetAttrD og "inquiryNo" (.str "")
        pure ("- 別問番同行GRP: " ++ pyStr nameV ++ "/" ++ pyStr inqV ++
          room ++ " " ++ pyStr stV)) ogElems
    pure ([head] ++ jtLines ++ roomingLines ++ opLines ++ celebLines ++
      mealLines ++ medicalLines ++ alLines ++ schedLines ++ busLines ++
      gearLines ++ ogLines ++ [""])
  | _ => .error "AttributeError"

/-- One course of render_text (formatter.py lines 32-154): the course
header and period line, the participant header when participants is
truthy, the participant blocks, and a trailing blank separator. -/
def renderCourse (c : JVal) : Except String (List String) :=
  match c with
  | .obj kvs => do
    let period := (lookupKV kvs "period").getD (.obj [])
    let startS := pySafe (← pyGetAttr period "start")
    let endS := pySafe (← pyGetAttr period "end")
    let cnoS := pyStr ((lookupKV kvs "courseNo").getD (.str ""))
    let line2 := "- コースNo: " ++ cnoS ++ " / 期間: " ++ startS ++ "–" ++ endS
    let participants := (lookupKV kvs "participants").getD (.arr [])
    let header := if pyTruthy participants then ["参加者（該当のみ）:"] else []
    let elems ← pyIter participants
    let plss ← mapE (renderParticipant cnoS) elems
    pure (["ツアー情報:", line2, ""] ++ header ++ plss.flatten ++ [""])
  | _ => .error "AttributeError"

/-- Python `s.strip()` on a string. -/
def pyStrip (s : String) : String := String.mk (stripChars s.data)

/-- render_text (formatter.py lines 18-156): the empty string for a falsy
course list, otherwise the joined per-course blocks with trailing
white space stripped. -/
def render_text (doc : JVal) : Except String String :=
  match doc with
  | .obj kvs =>
    let courses := (lookupKV kvs "courses").getD (.arr [])
    if !pyTruthy courses then .ok ""
    else
      match pyIter courses with
      | .error e => .error e
      | .ok cs =>
        match mapE renderCourse cs with
        | .error e => .error e
        | .ok lss => .ok (pyStrip (String.intercalate "\n" lss.flatten))
  | _ => .error "AttributeError"

/-! ## Orchestrator (src/pipeline.py)

The external extraction and semantic-review capabilities (llm_extractor /
llm_validator, out of the deterministic core) are abstracted as function
parameters `e` and `r`; a raised exception on their side is an `.error`
value. -/

/-- `all_courses.extend(extracted.get("courses", []))` (pipeline.py lines
123-124): the courses of one extracted document; extending by a non-list
iterates it, and a non-dict document has no `.get`. -/
def extractedCourses (ext : JVal) : Except String (List JVal) :=
  match ext with
  | .obj kvs =>
    match lookupKV kvs "courses" with
    | none => .ok []
    | some v => pyIter v
  | _ => .error "AttributeError"

/-- One iteration of the per-block loop of process_text (pipeline.py lines
82-124): extraction, schema validation (wrapping any exception with the
course label), semantic review (likewise), the read of `review.get("ok",
True)`, and the aggregation of the extracted courses.  Returns the courses
contributed by the block and the review entry collected for the report. -/
def runBlock (e : CourseBlock → Except String JVal)
    (r : CourseBlock → JVal → Except String JVal)
    (check : JVal → Bool) (loaded : Bool) (idx : Nat) (b : CourseBlock) :
    Except String (List JVal × (String × JVal)) := do
  let courseNo := if b.courseNo = "" then "BLOCK-" ++ toString (idx + 1) else b.courseNo
  let ext ← e b
  let ext ←
    match validate_schema check loaded ext with
    | .ok v => Except.ok v
    | .error m =>
      Except.error ("Schema validation failed for course " ++ courseNo ++ ": " ++ m)
  let review ←
    match r b ext with
    | .ok v => Except.ok v
    | .error m =>
      Except.error ("Semantic validation call failed for course " ++ courseNo ++ ": " ++ m)
  let _ ← pyGetAttrD review "ok" (.bool true)
  let cs ← extractedCourses ext
  pure (cs, (courseNo, review))

/-- The whole per-block loop of process_text, accumulating the aggregate
course list and the review report entries in block order. -/
def runBlocks (e : CourseBlock → Except String JVal)
    (r : CourseBlock → JVal → Except String JVal)
    (check : JVal → Bool) (loaded : Bool) (idx : Nat) :
    List CourseBlock → Except String (List JVal × List (String × JVal))
  | [] => .ok ([], [])
  | b :: bs =>
    match runBlock e r check loaded idx b with
    | .error m => .error m
    | .ok (cs, rv) =>
      match runBlocks e r check loaded (idx + 1) bs with
      | .error m => .error m
      | .ok (css, rvs) => .ok (cs ++ css, rv :: rvs)

/-- Duplicate-removing collection of the matched terms, standing for
`set(hits)` in the SystemExit message (pipeline.py line 135); CPython's
set iteration order is unspecified, the model fixes first-occurrence
order. -/
def dedup : List String → List String
  | [] => []
  | s :: t => s :: (dedup t).filter (fun x => x ≠ s)

/-- The SystemExit message raised on forbidden-term detection
(pipeline.py lines 133-136). -/
def ngMessage (hits : List String) : String :=
  "NGワード（座席・保険・金銭など）が出力に含まれています。 該当: " ++
    String.intercalate ", " (dedup hits)

/-- The stderr review report (_print_review_report, pipeline.py lines
31-64): only its possible exceptions are observable for the pipeline
result; each entry reads `ok` and iterates `errors or []` and
`warnings or []`, reading `code` and `message` of each element. -/
def printReviewReport (items : List (String × JVal)) : Except String Unit :=
  match items with
  | [] => .ok ()
  | (_, rv) :: t =>
    (match (do
      let review := pyOr rv (.obj [])
      let _ ← pyGetAttrD review "ok" (.bool true)
      let errs ← pyIter (pyOr (← pyGetAttr review "errors") (.arr []))
      let _ ← mapE (fun ev => do
        let _ ← pyGetAttrD ev "code" (.str "")
        let _ ← pyGetAttrD ev "message" (.str "")
        pure ()) errs
      let warns ← pyIter (pyOr (← pyGetAttr review "warnings") (.arr []))
      let _ ← mapE (fun wv => do
        let _ ← pyGetAttrD wv "code" (.str "")
        let _ ← pyGetAttrD wv "message" (.str "")
        pure ()) warns
      pure ()) with
    | .error m => .error m
    | .ok _ => printReviewReport t)

/-- process_text (pipeline.py lines 67-141): normalization, segmentation,
the per-block extract/repair/validate/review loop, rendering, the final
forbidden-term barrier (raising SystemExit with the matched terms), the
review report, and the final text. -/
def process_text (e : CourseBlock → Except String JVal)
    (r : CourseBlock → JVal → Except String JVal)
    (check : JVal → Bool) (loaded : Bool) (raw : String) : Except String String :=
  let lines := normalize_lines raw
  let blocks := find_course_blocks lines
  match runBlocks e r check loaded 0 blocks with
  | .error m => .error m
  | .ok (courses, reviews) =>
    match render_text (.obj [("courses", .arr courses)]) with
    | .error m => .error m
    | .ok text =>
      if contains_ng_terms text then .error (ngMessage (find_all_ng_terms text))
      else
        match printReviewReport reviews with
        | .error m => .error m
        | .ok _ => .ok text

/-! ## General lemmas: `mapE` and the dict operations -/

/-! ## Derived step functions and predicates used by the claims -/

/-- The sealed output of one fcbLoop step: on a course line the previous
identified block is emitted. -/
def fcbSealed (cur : CourseBlock) (ln : String) : List CourseBlock :=
  match courseMatch ln with
  | some _ => if cur.courseNo = "" then [] else [cur]
  | none => []

/-- The accumulator after one fcbLoop step. -/
def fcbStep (cur : CourseBlock) (ln : String) : CourseBlock :=
  let cur1 : CourseBlock :=
    match courseMatch ln with
    | some cno => ⟨cno, ("", ""), []⟩
    | none => cur
  let cur2 :=
    match periodMatch ln with
    | some pe => if cur1.courseNo = "" then cur1 else { cur1 with period := pe }
    | none => cur1
  if cur2.courseNo = "" then cur2 else { cur2 with lines := cur2.lines ++ [ln] }

/-- The period the loop actually records: the last date-range match among a
list of lines, or ("", "") if no line carries one. -/
def lastPeriodOf (ls : List String) : String × String :=
  ((ls.filterMap periodMatch).getLast?).getD ("", "")

/-- A participant object with a truthy busSeating field. -/
def hasBusSeating (p : JVal) : Bool :=
  match p with
  | .obj kvs => pyTruthy ((lookupKV kvs "busSeating").getD .null)
  | _ => false

/-- A course object some participant of which has a truthy busSeating. -/
def courseHasBusSeating (c : JVal) : Bool :=
  match c with
  | .obj kvs =>
    match lookupKV kvs "participants" with
    | some (.arr ps) => ps.any hasBusSeating
    | _ => false
  | _ => false

/-- A rendered document some course of which has a busSeating carrier. -/
def docHasBusSeating (d : JVal) : Bool :=
  match d with
  | .obj kvs =>
    match lookupKV kvs "courses" with
    | some (.arr cs) => cs.any courseHasBusSeating
    | _ => false
  | _ => false

/-- Whether an optional value holds a dict. -/
def isObjOpt : Option JVal → Bool
  | some (.obj _) => true
  | _ => false

/-- The hoist of ncsCourse cannot fire: a dict period carrying participants
implies the course already has them. -/
def hoistOkP (kvs : List (String × JVal)) : Prop :=
  ∀ pk, lookupKV kvs "period" = some (.obj pk) →
    containsKV pk "participants" = true → containsKV kvs "participants" = true

/-- Rerunning the period rewrite of ncsCourse is the identity. -/
def periodOkP (kvs : List (String × JVal)) : Prop :=
  match lookupKV kvs "period" with
  | none => True
  | some v =>
    if pyTruthy v = true then
      match v with
      | .obj pk =>
        if pyTruthy ((lookupKV pk "start").getD .null) = true ∨
            pyTruthy ((lookupKV pk "end").getD .null) = true then
          setKV kvs "period"
            (.obj [("start", pyOrEmptyStr ((lookupKV pk "start").getD .null)),
              ("end", pyOrEmptyStr ((lookupKV pk "end").getD .null))]) = kvs
        else True
      | _ => False
    else True

/-- Characterization of the course states left unchanged by ncsCourse. -/
def NCSFixed (kvs : List (String × JVal)) : Prop :=
  containsKV kvs "periodFrom" = false ∧ containsKV kvs "periodTo" = false ∧
  containsKV kvs "periodStart" = false ∧ containsKV kvs "periodEnd" = false ∧
  containsKV kvs "startDate" = false ∧ containsKV kvs "endDate" = false ∧
  hoistOkP kvs ∧ periodOkP kvs

/-- The fold over the three alias pairs erases the six alias keys. -/
def eraseAliases (kvs : List (String × JVal)) : List (String × JVal) :=
  eraseKV (eraseKV (eraseKV (eraseKV (eraseKV (eraseKV kvs
    "periodFrom") "periodTo") "periodStart") "periodEnd") "startDate") "endDate"

theorem mapE_forall2 {f : JVal → Except String JVal} :
    ∀ {xs ys : List JVal}, mapE f xs = .ok ys →
      List.Forall₂ (fun x y => f x = .ok y) xs ys := by
  intro xs
  induction xs with
  | nil => intro ys h; cases h; exact .nil
  | cons a l ih =>
    intro ys h
    unfold mapE at h
    cases hfa : f a with
    | error e => rw [hfa] at h; cases h
    | ok b =>
      rw [hfa] at h
      cases hml : mapE f l with
      | error e => rw [hml] at h; cases h
      | ok bs => rw [hml] at h; cases h; exact .cons hfa (ih hml)

theorem forall2_mapE {f : JVal → Except String JVal} :
    ∀ {xs ys : List JVal}, List.Forall₂ (fun x y => f x = .ok y) xs ys →
      mapE f xs = .ok ys := by
  intro xs ys h
  induction h with
  | nil => rfl
  | cons hfa _ ih => unfold mapE; rw [hfa, ih]

theorem mapE_self {f : JVal → Except String JVal} {xs : List JVal}
    (h : ∀ x ∈ xs, f x = .ok x) : mapE f xs = .ok xs := by
  apply forall2_mapE
  induction xs with
  | nil => exact .nil
  | cons a l ih =>
    exact .cons (h a (List.mem_cons_self a l)) (ih (fun x hx => h x (List.mem_cons_of_mem a hx)))

theorem mapE_ok_self {f : JVal → Except String JVal} : ∀ {xs : List JVal},
    mapE f xs = .ok xs → ∀ x ∈ xs, f x = .ok x := by
  intro xs
  induction xs with
  | nil => intro _ x hx; cases hx
  | cons a l ih =>
    intro h x hx
    unfold mapE at h
    cases hfa : f a with
    | error e => rw [hfa] at h; cases h
    | ok b =>
      rw [hfa] at h
      cases hml : mapE f l with
      | error e => rw [hml] at h; cases h
      | ok bs =>
        rw [hml] at h
        injection h with h2
        injection h2 with hb hbs
        rcases List.mem_cons.1 hx with rfl | hx2
        · rw [hb] at hfa; exact hfa
        · rw [hbs] at hml; exact ih hml x hx2

theorem lookupKV_setKV_self (l : List (String × JVal)) (k : String) (v : JVal) :
    lookupKV (setKV l k v) k = some v := by
  induction l with
  | nil => simp [setKV, lookupKV]
  | cons kv t ih =>
    by_cases h : kv.1 = k
    · simp [setKV, h, lookupKV]
    · simp [setKV, h, lookupKV, ih]

theorem lookupKV_eraseKV_self (l : List (String × JVal)) (k : String) :
    lookupKV (eraseKV l k) k = none := by
  induction l with
  | nil => rfl
  | cons kv t ih =>
    by_cases h : kv.1 = k
    · simp [eraseKV, h, ih]
    · simp [eraseKV, h, lookupKV, ih]

theorem lookupKV_eraseKV_ne (l : List (String × JVal)) {k k' : String}
    (h : k' ≠ k) : lookupKV (eraseKV l k) k' = lookupKV l k' := by
  have h1 : ¬(k = k') := fun he => h he.symm
  have h0 : ¬(k' = k) := h
  induction l with
  | nil => rfl
  | cons kv t ih =>
    by_cases hk : kv.1 = k
    · have h2 : ¬(kv.1 = k') := by rw [hk]; exact h1
      simp [eraseKV, hk, lookupKV, h0, h1, h2, ih]
    · by_cases h3 : kv.1 = k'
      · simp [eraseKV, hk, lookupKV, h0, h1, h3]
      · simp [eraseKV, hk, lookupKV, h0, h1, h3, ih]

theorem lookupKV_setKV_ne (l : List (String × JVal)) {k k' : String} (v : JVal)
    (h : k' ≠ k) : lookupKV (setKV l k v) k' = lookupKV l k' := by
  have h1 : ¬(k = k') := fun he => h he.symm
  induction l with
  | nil => simp [setKV, lookupKV, h1]
  | cons kv t ih =>
    by_cases hk : kv.1 = k
    · have h2 : ¬(kv.1 = k') := by rw [hk]; exact h1
      simp [setKV, hk, lookupKV, h, h1, h2, lookupKV_eraseKV_ne t h]
    · by_cases h3 : kv.1 = k'
      · simp [setKV, hk, lookupKV, h, h1, h3]
      · simp [setKV, hk, lookupKV, h, h1, h3, ih]

theorem containsKV_eraseKV_self (l : List (String × JVal)) (k : String) :
    containsKV (eraseKV l k) k = false := by
  induction l with
  | nil => rfl
  | cons kv t ih =>
    by_cases h : kv.1 = k
    · simp [eraseKV, h, ih]
    · simp [eraseKV, h, containsKV, ih]

theorem containsKV_eraseKV_ne (l : List (String × JVal)) {k k' : String}
    (h : k' ≠ k) : containsKV (eraseKV l k) k' = containsKV l k' := by
  have h1 : ¬(k = k') := fun he => h he.symm
  induction l with
  | nil => rfl
  | cons kv t ih =>
    by_cases hk : kv.1 = k
    · have h2 : ¬(kv.1 = k') := by rw [hk]; exact h1
      simp [eraseKV, hk, containsKV, h, h1, h2, ih]
    · simp [eraseKV, hk, containsKV, ih]

theorem containsKV_setKV_self (l : List (String × JVal)) (k : String) (v : JVal) :
    containsKV (setKV l k v) k = true := by
  induction l with
  | nil => simp [setKV, containsKV]
  | cons kv t ih =>
    by_cases hk : kv.1 = k
    · simp [setKV, hk, containsKV]
    · simp [setKV, hk, containsKV, ih]

theorem containsKV_setKV_ne (l : List (String × JVal)) {k k' : String} (v : JVal)
    (h : k' ≠ k) : containsKV (setKV l k v) k' = containsKV l k' := by
  have h1 : ¬(k = k') := fun he => h he.symm
  induction l with
  | nil => simp [setKV, containsKV, h1]
  | cons kv t ih =>
    by_cases hk : kv.1 = k
    · have h2 : ¬(kv.1 = k') := by rw [hk]; exact h1
      simp [setKV, hk, containsKV, h, h1, h2, containsKV_eraseKV_ne t h]
    · simp [setKV, hk, containsKV, ih]

theorem eraseKV_of_not_contains {l : List (String × JVal)} {k : String}
    (h : containsKV l k = false) : eraseKV l k = l := by
  induction l with
  | nil => rfl
  | cons kv t ih =>
    simp only [containsKV, Bool.or_eq_false_iff] at h
    have hk : ¬(kv.1 = k) := by
      intro he
      rw [he] at h
      simp at h
    simp [eraseKV, hk, ih h.2]

theorem eraseKV_eraseKV_self (l : List (String × JVal)) (k : String) :
    eraseKV (eraseKV l k) k = eraseKV l k :=
  eraseKV_of_not_contains (containsKV_eraseKV_self l k)

theorem eraseKV_eraseKV_comm (l : List (String × JVal)) (k k' : String) :
    eraseKV (eraseKV l k) k' = eraseKV (eraseKV l k') k := by
  by_cases hkk : k = k'
  · rw [hkk]
  · have h1 : ¬(k' = k) := fun he => hkk he.symm
    induction l with
    | nil => rfl
    | cons kv t ih =>
      by_cases hk : kv.1 = k
      · have h2 : ¬(kv.1 = k') := by rw [hk]; exact hkk
        simp [eraseKV, hk, hkk, h1, h2, ih]
      · by_cases h2 : kv.1 = k'
        · simp [eraseKV, hk, hkk, h1, h2, ih]
        · simp [eraseKV, hk, hkk, h1, h2, ih]

theorem setKV_setKV_self (l : List (String × JVal)) (k : String) (v w : JVal) :
    setKV (setKV l k v) k w = setKV l k w := by
  induction l with
  | nil => simp [setKV, eraseKV]
  | cons kv t ih =>
    by_cases hk : kv.1 = k
    · simp [setKV, hk, eraseKV_eraseKV_self]
    · simp [setKV, hk, ih]

theorem eraseKV_setKV_comm (l : List (String × JVal)) {k k' : String} (v : JVal)
    (h : k ≠ k') : eraseKV (setKV l k v) k' = setKV (eraseKV l k') k v := by
  have h1 : ¬(k' = k) := fun he => h he.symm
  induction l with
  | nil => simp [setKV, eraseKV, h, h1]
  | cons kv t ih =>
    by_cases hk : kv.1 = k
    · have h2 : ¬(kv.1 = k') := by rw [hk]; exact h
      simp [setKV, hk, eraseKV, h2, h, h1, eraseKV_eraseKV_comm t k k']
    · by_cases h3 : kv.1 = k'
      · simp [setKV, hk, eraseKV, h3, h, h1, ih]
      · simp [setKV, hk, eraseKV, h3, h, h1, ih]

theorem setKV_comm (l : List (String × JVal)) {k k' : String} (v w : JVal)
    (h : k ≠ k') (hc : containsKV l k = true) :
    setKV (setKV l k v) k' w = setKV (setKV l k' w) k v := by
  have h1 : ¬(k' = k) := fun he => h he.symm
  induction l with
  | nil => cases hc
  | cons kv t ih =>
    by_cases hk : kv.1 = k
    · have h2 : ¬(kv.1 = k') := by rw [hk]; exact h
      simp [setKV, hk, h2, h, h1, eraseKV_setKV_comm t w h1]
    · by_cases h2 : kv.1 = k'
      · simp [setKV, hk, h2, h, h1, eraseKV_setKV_comm t v h]
      · have hc2 : containsKV t k = true := by
          simp only [containsKV, Bool.or_eq_true] at hc
          rcases hc with hc1 | hc1
          · exact absurd (of_decide_eq_true hc1) hk
          · exact hc1
        simp [setKV, hk, h2, ih hc2]

/-! ## Lemmas about `mapListField` -/

theorem mapListField_ok_shape {b : Bool} {key : String}
    {f : JVal → Except String JVal} {d q : JVal}
    (h : mapListField b key f d = .ok q) :
    ∃ kvs, d = .obj kvs ∧
      ((q = d ∧ (lookupKV kvs key = none
          ∨ (∃ v, lookupKV kvs key = some v ∧ b = true ∧ pyTruthy v = false)
          ∨ (∃ s el, lookupKV kvs key = some (.str s) ∧ mapE f (strElems s) = .ok el)
          ∨ (∃ okvs el, lookupKV kvs key = some (.obj okvs) ∧
              mapE f (keyElems okvs) = .ok el)))
        ∨ (∃ xs ys, lookupKV kvs key = some (.arr xs) ∧ mapE f xs = .ok ys ∧
            q = .obj (setKV kvs key (.arr ys)))) := by
  cases d with
  | obj kvs =>
    refine ⟨kvs, rfl, ?_⟩
    simp only [mapListField] at h
    split at h
    next hl =>
      injection h with h2
      exact Or.inl ⟨h2.symm, Or.inl hl⟩
    next v hl =>
      by_cases hcond : (b && !pyTruthy v) = true
      · rw [if_pos hcond] at h
        injection h with h2
        have h3 := hcond
        rw [Bool.and_eq_true] at h3
        refine Or.inl ⟨h2.symm, Or.inr (Or.inl ⟨v, hl, h3.1, ?_⟩)⟩
        have h4 := h3.2
        cases hpv : pyTruthy v
        · rfl
        · rw [hpv] at h4; cases h4
      · rw [if_neg hcond] at h
        split at h
        next xs =>
          split at h
          next ys hm =>
            injection h with h2
            exact Or.inr ⟨xs, ys, hl, hm, h2.symm⟩
          next e hm => cases h
        next s =>
          split at h
          next el hm =>
            injection h with h2
            exact Or.inl ⟨h2.symm, Or.inr (Or.inr (Or.inl ⟨s, el, hl, hm⟩))⟩
          next e hm => cases h
        next okvs =>
          split at h
          next el hm =>
            injection h with h2
            exact Or.inl ⟨h2.symm, Or.inr (Or.inr (Or.inr ⟨okvs, el, hl, hm⟩))⟩
          next e hm => cases h
        next => cases h
  | null => cases h
  | bool b2 => cases h
  | int n => cases h
  | str s => cases h
  | arr xs => cases h

theorem mapListField_ok_of_none {b : Bool} {key : String}
    {f : JVal → Except String JVal} {kvs : List (String × JVal)}
    (hl : lookupKV kvs key = none) :
    mapListField b key f (.obj kvs) = .ok (.obj kvs) := by
  simp [mapListField, hl]

theorem mapListField_ok_of_falsy {b : Bool} {key : String}
    {f : JVal → Except String JVal} {kvs : List (String × JVal)} {v : JVal}
    (hl : lookupKV kvs key = some v) (hb : b = true) (hv : pyTruthy v = false) :
    mapListField b key f (.obj kvs) = .ok (.obj kvs) := by
  simp [mapListField, hl, hb, hv]

theorem mapListField_ok_of_str {b : Bool} {key : String}
    {f : JVal → Except String JVal} {kvs : List (String × JVal)} {s : String}
    {el : List JVal} (hl : lookupKV kvs key = some (.str s))
    (hm : mapE f (strElems s) = .ok el) :
    mapListField b key f (.obj kvs) = .ok (.obj kvs) := by
  cases hcond : (b && !pyTruthy (JVal.str s))
  · simp [mapListField, hl, hcond, hm]
  · simp [mapListField, hl, hcond]

theorem mapListField_ok_of_objv {b : Bool} {key : String}
    {f : JVal → Except String JVal} {kvs okvs : List (String × JVal)}
    {el : List JVal} (hl : lookupKV kvs key = some (.obj okvs))
    (hm : mapE f (keyElems okvs) = .ok el) :
    mapListField b key f (.obj kvs) = .ok (.obj kvs) := by
  cases hcond : (b && !pyTruthy (JVal.obj okvs))
  · simp [mapListField, hl, hcond, hm]
  · simp [mapListField, hl, hcond]

theorem mapListField_ok_of_arr_fix {b : Bool} {key : String}
    {f : JVal → Except String JVal} {kvs : List (String × JVal)} {xs : List JVal}
    (hl : lookupKV kvs key = some (.arr xs)) (hm : mapE f xs = .ok xs)
    (hset : setKV kvs key (.arr xs) = kvs) :
    mapListField b key f (.obj kvs) = .ok (.obj kvs) := by
  cases hcond : (b && !pyTruthy (JVal.arr xs))
  · simp [mapListField, hl, hcond, hm, hset]
  · simp [mapListField, hl, hcond]

theorem forall2_mem_right {α : Type} {R : α → α → Prop} :
    ∀ {xs ys : List α}, List.Forall₂ R xs ys → ∀ y ∈ ys, ∃ x ∈ xs, R x y := by
  intro xs ys h
  induction h with
  | nil => intro y hy; cases hy
  | @cons a b l l2 hab _ ih =>
    intro y hy
    rcases List.mem_cons.1 hy with rfl | hy2
    · exact ⟨a, List.mem_cons_self a l, hab⟩
    · obtain ⟨x, hx, hR⟩ := ih y hy2
      exact ⟨x, List.mem_cons_of_mem a hx, hR⟩

theorem mapE_idem_output {f : JVal → Except String JVal}
    (hf : ∀ x y, f x = .ok y → f y = .ok y) :
    ∀ {xs ys : List JVal}, mapE f xs = .ok ys → mapE f ys = .ok ys := by
  intro xs ys h
  apply mapE_self
  intro y hy
  obtain ⟨x, _, hxy⟩ := forall2_mem_right (mapE_forall2 h) y hy
  exact hf x y hxy

theorem mapE_pres {f g : JVal → Except String JVal}
    (hp : ∀ x y, f x = .ok x → g x = .ok y → f y = .ok y)
    {xs zs : List JVal} (hfix : ∀ x ∈ xs, f x = .ok x)
    (h : mapE g xs = .ok zs) : ∀ z ∈ zs, f z = .ok z := by
  intro z hz
  obtain ⟨x, hx, hxz⟩ := forall2_mem_right (mapE_forall2 h) z hz
  exact hp x z (hfix x hx) hxz

theorem setKV_eq_self_lookup {l : List (String × JVal)} {k : String} {v : JVal}
    (h : setKV l k v = l) : lookupKV l k = some v := by
  conv_lhs => rw [← h]
  rw [lookupKV_setKV_self]

/-- Idempotence of one mapListField layer, given elementwise idempotence of
the loop body. -/
theorem mapListField_idem {b : Bool} {key : String} {f : JVal → Except String JVal}
    (hf : ∀ x y, f x = .ok y → f y = .ok y)
    {d q : JVal} (h : mapListField b key f d = .ok q) :
    mapListField b key f q = .ok q := by
  obtain ⟨kvs, rfl, hsh⟩ := mapListField_ok_shape h
  rcases hsh with ⟨rfl, hcase⟩ | ⟨xs, ys, hl, hm, rfl⟩
  · rcases hcase with hl | ⟨v, hl, hb, hv⟩ | ⟨s, el, hl, hm⟩ | ⟨okvs, el, hl, hm⟩
    · exact mapListField_ok_of_none hl
    · exact mapListField_ok_of_falsy hl hb hv
    · exact mapListField_ok_of_str hl hm
    · exact mapListField_ok_of_objv hl hm
  · exact mapListField_ok_of_arr_fix (lookupKV_setKV_self kvs key (.arr ys))
      (mapE_idem_output hf hm) (setKV_setKV_self kvs key (.arr ys) (.arr ys))

/-- A later pass preserves fixpoints of an earlier pass working on the same
list field, given elementwise preservation. -/
theorem mapListField_fix_pres {b : Bool} {key : String}
    {f g : JVal → Except String JVal}
    (hp : ∀ x y, f x = .ok x → g x = .ok y → f y = .ok y)
    {d q : JVal} (hf : mapListField b key f d = .ok d)
    (hg : mapListField b key g d = .ok q) :
    mapListField b key f q = .ok q := by
  obtain ⟨kvs, rfl, hshg⟩ := mapListField_ok_shape hg
  rcases hshg with ⟨rfl, _⟩ | ⟨xs, zs, hl, hmg, rfl⟩
  · exact hf
  · obtain ⟨kvs2, heq, hshf⟩ := mapListField_ok_shape hf
    injection heq with heq2
    subst heq2
    rcases hshf with ⟨_, hcase⟩ | ⟨xs2, ys2, hl2, hm2, hq2⟩
    · rcases hcase with hl2 | ⟨v, hl2, hb, hv⟩ | ⟨s, el, hl2, hm2⟩ | ⟨okvs, el, hl2, hm2⟩
      · rw [hl] at hl2; cases hl2
      · rw [hl] at hl2
        injection hl2 with hv2
        subst hv2
        have hxs : xs = [] := by
          cases xs with
          | nil => rfl
          | cons a t => simp [pyTruthy] at hv
        subst hxs
        have hzs : zs = [] := by
          have : mapE g ([] : List JVal) = .ok [] := rfl
          rw [this] at hmg
          injection hmg with h3
          exact h3.symm
        subst hzs
        exact mapListField_ok_of_falsy (lookupKV_setKV_self kvs key (.arr []))
          hb (by rfl)
      · rw [hl] at hl2; cases hl2
      · rw [hl] at hl2; cases hl2
    · rw [hl] at hl2
      injection hl2 with he
      injection he with he2
      subst he2
      have hset : setKV kvs key (.arr ys2) = kvs := by
        injection hq2 with h3
        exact h3.symm
      have hys3 : xs = ys2 := by
        have h5 := setKV_eq_self_lookup hset
        rw [hl] at h5
        injection h5 with h4
        exact JVal.arr.inj h4
      subst hys3
      have hfix := mapE_ok_self hm2
      have hz : ∀ z ∈ zs, f z = .ok z := mapE_pres hp hfix hmg
      exact mapListField_ok_of_arr_fix (lookupKV_setKV_self kvs key (.arr zs))
        (mapE_self hz) (setKV_setKV_self kvs key (.arr zs) (.arr zs))

/-- A mapListField fixpoint is preserved when the value of a different,
already-present key of the dict is replaced. -/
theorem mapListField_fix_setKV_other {b : Bool} {key k2 : String}
    {f : JVal → Except String JVal} {kvs : List (String × JVal)} {w : JVal}
    (hne : k2 ≠ key) (hc : containsKV kvs k2 = true)
    (hf : mapListField b key f (.obj kvs) = .ok (.obj kvs)) :
    mapListField b key f (.obj (setKV kvs k2 w)) = .ok (.obj (setKV kvs k2 w)) := by
  have hlkp : lookupKV (setKV kvs k2 w) key = lookupKV kvs key :=
    lookupKV_setKV_ne kvs w (fun he => hne he.symm)
  obtain ⟨kvs2, heq, hsh⟩ := mapListField_ok_shape hf
  injection heq with heq2
  subst heq2
  rcases hsh with ⟨_, hcase⟩ | ⟨xs, ys, hl, hm, hq⟩
  · rcases hcase with hl | ⟨v, hl, hb, hv⟩ | ⟨s, el, hl, hm⟩ | ⟨okvs, el, hl, hm⟩
    · exact mapListField_ok_of_none (by rw [hlkp, hl])
    · exact mapListField_ok_of_falsy (by rw [hlkp, hl]) hb hv
    · exact mapListField_ok_of_str (by rw [hlkp, hl]) hm
    · exact mapListField_ok_of_objv (by rw [hlkp, hl]) hm
  · have hset : setKV kvs key (.arr ys) = kvs := by
      injection hq with h3
      exact h3.symm
    have hys2 : xs = ys := by
      have h5 := setKV_eq_self_lookup hset
      rw [hl] at h5
      injection h5 with h4
      exact JVal.arr.inj h4
    subst hys2
    have hset2 : setKV (setKV kvs k2 w) key (.arr xs) = setKV kvs k2 w := by
      rw [setKV_comm kvs w (.arr xs) hne hc, hset]
    exact mapListField_ok_of_arr_fix (by rw [hlkp, hl]) hm hset2

/-! ## Lemmas about the repair-pass bodies -/

theorem lookupKV_eq_none_of_not_contains {l : List (String × JVal)} {k : String}
    (h : containsKV l k = false) : lookupKV l k = none := by
  induction l with
  | nil => rfl
  | cons kv t ih =>
    simp only [containsKV, Bool.or_eq_false_iff] at h
    have hk : ¬(kv.1 = k) := by
      intro he
      rw [he] at h
      simp at h
    simp [lookupKV, hk, ih h.2]

theorem containsKV_of_lookupKV {l : List (String × JVal)} {k : String} {v : JVal}
    (h : lookupKV l k = some v) : containsKV l k = true := by
  cases hc : containsKV l k with
  | true => rfl
  | false => rw [lookupKV_eq_none_of_not_contains hc] at h; cases h

theorem setKV_fix_setKV_other {kvs : List (String × JVal)} {k k2 : String}
    {v w : JVal} (hfix : setKV kvs k v = kvs) (hne : k2 ≠ k)
    (hc : containsKV kvs k2 = true) :
    setKV (setKV kvs k2 w) k v = setKV kvs k2 w := by
  rw [setKV_comm kvs w v hne hc, hfix]

theorem cleanOp_idem : ∀ x y, cleanOp x = .ok y → cleanOp y = .ok y := by
  intro x y h
  cases x with
  | obj kvs =>
    by_cases hc : containsKV kvs "status" = true
    · have h2 : y = JVal.obj (eraseKV kvs "status") := by
        simp [cleanOp, hc] at h
        exact h.symm
      subst h2
      simp [cleanOp, containsKV_eraseKV_self]
    · have h2 : y = JVal.obj kvs := by
        simp [cleanOp, hc] at h
        exact h.symm
      subst h2
      simp [cleanOp, hc]
  | null => simp [cleanOp] at h; rw [← h]; rfl
  | bool b => simp [cleanOp] at h; rw [← h]; rfl
  | int n => simp [cleanOp] at h; rw [← h]; rfl
  | str s => simp [cleanOp] at h; rw [← h]; rfl
  | arr xs => simp [cleanOp] at h; rw [← h]; rfl

theorem coerceOp_idem : ∀ x y, coerceOp x = .ok y → coerceOp y = .ok y := by
  intro x y h
  cases x with
  | obj kvs =>
    have fin : y = JVal.obj kvs → coerceOp y = .ok y := by
      intro h2
      subst h2
      exact h
    cases hl : lookupKV kvs "pax" with
    | none =>
      apply fin
      simp [coerceOp, hl] at h
      exact h.symm
    | some v =>
      cases v with
      | str s =>
        by_cases hd : isDigitStr s = true
        · have h2 : y = JVal.obj (setKV kvs "pax" (.int (strToInt s))) := by
            simp [coerceOp, hl, hd] at h
            exact h.symm
          subst h2
          simp [coerceOp, lookupKV_setKV_self]
        · apply fin
          simp [coerceOp, hl, hd] at h
          exact h.symm
      | null => apply fin; simp [coerceOp, hl] at h; exact h.symm
      | bool b => apply fin; simp [coerceOp, hl] at h; exact h.symm
      | int n => apply fin; simp [coerceOp, hl] at h; exact h.symm
      | arr xs => apply fin; simp [coerceOp, hl] at h; exact h.symm
      | obj okvs => apply fin; simp [coerceOp, hl] at h; exact h.symm
  | null => cases h
  | bool b => cases h
  | int n => cases h
  | str s => cases h
  | arr xs => cases h

theorem cleanOp_fix_pres_coerceOp :
    ∀ x y, cleanOp x = .ok x → coerceOp x = .ok y → cleanOp y = .ok y := by
  intro x y hf h
  cases x with
  | obj kvs =>
    have hs : containsKV kvs "status" = false := by
      cases hc : containsKV kvs "status" with
      | false => rfl
      | true =>
        simp [cleanOp, hc] at hf
        have h3 := congrArg (fun l => containsKV l "status") hf
        simp only [containsKV_eraseKV_self] at h3
        rw [hc] at h3
        cases h3
    have fin : y = JVal.obj kvs → cleanOp y = .ok y := by
      intro h2
      subst h2
      simp [cleanOp, hs]
    cases hl : lookupKV kvs "pax" with
    | none =>
      apply fin
      simp [coerceOp, hl] at h
      exact h.symm
    | some v =>
      cases v with
      | str s =>
        by_cases hd : isDigitStr s = true
        · have h2 : y = JVal.obj (setKV kvs "pax" (.int (strToInt s))) := by
            simp [coerceOp, hl, hd] at h
            exact h.symm
          subst h2
          have h4 : containsKV (setKV kvs "pax" (.int (strToInt s))) "status" = false := by
            rw [containsKV_setKV_ne kvs _ (by decide), hs]
          simp [cleanOp, h4]
        · apply fin
          simp [coerceOp, hl, hd] at h
          exact h.symm
      | null => apply fin; simp [coerceOp, hl] at h; exact h.symm
      | bool b => apply fin; simp [coerceOp, hl] at h; exact h.symm
      | int n => apply fin; simp [coerceOp, hl] at h; exact h.symm
      | arr xs => apply fin; simp [coerceOp, hl] at h; exact h.symm
      | obj okvs => apply fin; simp [coerceOp, hl] at h; exact h.symm
  | null => cases h
  | bool b => cases h
  | int n => cases h
  | str s => cases h
  | arr xs => cases h

theorem coerceNo_shape (kvs : List (String × JVal)) :
    coerceNo kvs = kvs ∨
      (∃ s, lookupKV kvs "no" = some (.str s) ∧ isDigitStr s = true ∧
        coerceNo kvs = setKV kvs "no" (.int (strToInt s))) := by
  cases hl : lookupKV kvs "no" with
  | none => exact Or.inl (by simp [coerceNo, hl])
  | some v =>
    cases v with
    | str s =>
      by_cases hd : isDigitStr s = true
      · exact Or.inr ⟨s, rfl, hd, by simp [coerceNo, hl, hd]⟩
      · exact Or.inl (by simp [coerceNo, hl, hd])
    | null => exact Or.inl (by simp [coerceNo, hl])
    | bool b => exact Or.inl (by simp [coerceNo, hl])
    | int n => exact Or.inl (by simp [coerceNo, hl])
    | arr xs => exact Or.inl (by simp [coerceNo, hl])
    | obj okvs => exact Or.inl (by simp [coerceNo, hl])

theorem coerceNo_contains (kvs : List (String × JVal)) (k : String) :
    containsKV (coerceNo kvs) k = containsKV kvs k := by
  rcases coerceNo_shape kvs with h | ⟨s, hl, hd, h⟩
  · rw [h]
  · rw [h]
    by_cases hk : k = "no"
    · subst hk
      rw [containsKV_setKV_self, containsKV_of_lookupKV hl]
    · exact containsKV_setKV_ne kvs _ hk

theorem coerceNo_lookup_ne (kvs : List (String × JVal)) {k : String}
    (hk : k ≠ "no") : lookupKV (coerceNo kvs) k = lookupKV kvs k := by
  rcases coerceNo_shape kvs with h | ⟨s, hl, hd, h⟩
  · rw [h]
  · rw [h]
    exact lookupKV_setKV_ne kvs _ hk

theorem coerceNo_idem (kvs : List (String × JVal)) :
    coerceNo (coerceNo kvs) = coerceNo kvs := by
  rcases coerceNo_shape kvs with h | ⟨s, hl, hd, h⟩
  · rw [h, h]
  · rw [h]
    simp [coerceNo, lookupKV_setKV_self]

theorem ntfParticipant_ok_shape {p q : JVal} (h : ntfParticipant p = .ok q) :
    ∃ kvs, p = .obj kvs ∧ containsKV kvs "meal_allergy" = false ∧
      containsKV kvs "medical" = false ∧ containsKV kvs "scheduleImpact" = false ∧
      ((q = p ∧ isObjOpt (lookupKV kvs "airline") = false) ∨
       (∃ al0, lookupKV kvs "airline" = some (.obj al0) ∧
          q = .obj (setKV kvs "airline" (.obj [])))) := by
  cases p with
  | obj kvs =>
    refine ⟨kvs, rfl, ?_⟩
    by_cases hcond : (containsKV kvs "meal_allergy" || containsKV kvs "medical" ||
        containsKV kvs "scheduleImpact") = true
    · simp only [ntfParticipant, hcond, if_true] at h
      cases h
    · have h3 := hcond
      simp only [Bool.or_eq_true, not_or, Bool.not_eq_true] at h3
      refine ⟨h3.1.1, h3.1.2, h3.2, ?_⟩
      simp only [ntfParticipant] at h
      rw [if_neg hcond] at h
      cases hl : lookupKV kvs "airline" with
      | none =>
        rw [hl] at h
        injection h with h2
        exact Or.inl ⟨h2.symm, by simp [isObjOpt]⟩
      | some v =>
        rw [hl] at h
        cases v with
        | obj al0 =>
          have h4 : (if (ntfAirline al0).any (fun kv => allowedAirlineKey kv.1) = true
              then (.error toStrNameError : Except String JVal)
              else .ok (.obj (setKV kvs "airline" (.obj [])))) = .ok q := h
          by_cases hany : ((ntfAirline al0).any (fun kv => allowedAirlineKey kv.1) = true)
          · rw [if_pos hany] at h4
            cases h4
          · rw [if_neg hany] at h4
            injection h4 with h2
            exact Or.inr ⟨al0, rfl, h2.symm⟩
        | null => injection h with h2; exact Or.inl ⟨h2.symm, by simp [isObjOpt]⟩
        | bool b => injection h with h2; exact Or.inl ⟨h2.symm, by simp [isObjOpt]⟩
        | int n => injection h with h2; exact Or.inl ⟨h2.symm, by simp [isObjOpt]⟩
        | str s => injection h with h2; exact Or.inl ⟨h2.symm, by simp [isObjOpt]⟩
        | arr xs => injection h with h2; exact Or.inl ⟨h2.symm, by simp [isObjOpt]⟩
  | null => cases h
  | bool b => cases h
  | int n => cases h
  | str s => cases h
  | arr xs => cases h

theorem ntfParticipant_ok_build_nonobj {kvs : List (String × JVal)}
    (h1 : containsKV kvs "meal_allergy" = false)
    (h2 : containsKV kvs "medical" = false)
    (h3 : containsKV kvs "scheduleImpact" = false)
    (ha : isObjOpt (lookupKV kvs "airline") = false) :
    ntfParticipant (.obj kvs) = .ok (.obj kvs) := by
  simp only [ntfParticipant]
  rw [if_neg (by rw [h1, h2, h3]; simp)]
  cases hl : lookupKV kvs "airline" with
  | none => rfl
  | some v =>
    rw [hl] at ha
    cases v with
    | obj al0 => simp [isObjOpt] at ha
    | null => rfl
    | bool b => rfl
    | int n => rfl
    | str s => rfl
    | arr xs => rfl

theorem ntfParticipant_ok_build_emptyobj {kvs : List (String × JVal)}
    (h1 : containsKV kvs "meal_allergy" = false)
    (h2 : containsKV kvs "medical" = false)
    (h3 : containsKV kvs "scheduleImpact" = false)
    (ha : lookupKV kvs "airline" = some (.obj [])) :
    ntfParticipant (.obj kvs) = .ok (.obj (setKV kvs "airline" (.obj []))) := by
  simp only [ntfParticipant]
  rw [if_neg (by rw [h1, h2, h3]; simp)]
  rw [ha]
  rfl

theorem ntfParticipant_idem :
    ∀ x y, ntfParticipant x = .ok y → ntfParticipant y = .ok y := by
  intro x y h
  obtain ⟨kvs, rfl, h1, h2, h3, hsh⟩ := ntfParticipant_ok_shape h
  rcases hsh with ⟨rfl, ha⟩ | ⟨al0, hl, rfl⟩
  · exact ntfParticipant_ok_build_nonobj h1 h2 h3 ha
  · have hb1 : containsKV (setKV kvs "airline" (.obj [])) "meal_allergy" = false := by
      rw [containsKV_setKV_ne kvs _ (by decide), h1]
    have hb2 : containsKV (setKV kvs "airline" (.obj [])) "medical" = false := by
      rw [containsKV_setKV_ne kvs _ (by decide), h2]
    have hb3 : containsKV (setKV kvs "airline" (.obj [])) "scheduleImpact" = false := by
      rw [containsKV_setKV_ne kvs _ (by decide), h3]
    have := ntfParticipant_ok_build_emptyobj hb1 hb2 hb3
      (lookupKV_setKV_self kvs "airline" (.obj []))
    rw [setKV_setKV_self] at this
    exact this

theorem cleanParticipant_idem :
    ∀ x y, cleanParticipant x = .ok y → cleanParticipant y = .ok y := by
  intro x y h
  exact mapListField_idem cleanOp_idem h

theorem coerceNo_no_stable (kvs : List (String × JVal)) :
    ∀ s, lookupKV (coerceNo kvs) "no" = some (.str s) → isDigitStr s = false := by
  intro s hls
  rcases coerceNo_shape kvs with ht | ⟨t, hlt, hdt, ht⟩
  · rw [ht] at hls
    cases hd : isDigitStr s with
    | false => rfl
    | true =>
      exfalso
      have h2 : coerceNo kvs = setKV kvs "no" (.int (strToInt s)) := by
        simp [coerceNo, hls, hd]
      rw [ht] at h2
      have h3 := congrArg (fun l => lookupKV l "no") h2
      simp only [lookupKV_setKV_self] at h3
      rw [hls] at h3
      cases h3
  · rw [ht, lookupKV_setKV_self] at hls
    cases hls

theorem coerceParticipant_idem :
    ∀ x y, coerceParticipant x = .ok y → coerceParticipant y = .ok y := by
  intro x y h
  cases x with
  | obj kvs =>
    have h0 : mapListField true "optionalRQ" coerceOp (.obj (coerceNo kvs)) = .ok y := h
    obtain ⟨kvs1, heq, hsh⟩ := mapListField_ok_shape h0
    injection heq with heq2
    subst heq2
    have hidem := mapListField_idem coerceOp_idem h0
    have hyshape : ∃ ykvs, y = JVal.obj ykvs ∧
        lookupKV ykvs "no" = lookupKV (coerceNo kvs) "no" := by
      rcases hsh with ⟨rfl, _⟩ | ⟨xs, ys, hl, hm, rfl⟩
      · exact ⟨coerceNo kvs, rfl, rfl⟩
      · exact ⟨setKV (coerceNo kvs) "optionalRQ" (.arr ys), rfl,
          lookupKV_setKV_ne (coerceNo kvs) _ (by decide)⟩
    obtain ⟨ykvs, rfl, hyno⟩ := hyshape
    have hfix : coerceNo ykvs = ykvs := by
      rcases coerceNo_shape ykvs with hs | ⟨s, hls, hds, hs⟩
      · exact hs
      · exfalso
        rw [hyno] at hls
        have h5 := coerceNo_no_stable kvs s hls
        rw [hds] at h5
        cases h5
    show mapListField true "optionalRQ" coerceOp (.obj (coerceNo ykvs)) = .ok (.obj ykvs)
    rw [hfix]
    exact hidem
  | null => cases h
  | bool b => cases h
  | int n => cases h
  | str s => cases h
  | arr xs => cases h

theorem cleanParticipant_fix_pres_ntf :
    ∀ x y, cleanParticipant x = .ok x → ntfParticipant x = .ok y →
      cleanParticipant y = .ok y := by
  intro x y hf h
  obtain ⟨kvs, rfl, _, _, _, hsh⟩ := ntfParticipant_ok_shape h
  rcases hsh with ⟨rfl, _⟩ | ⟨al0, hl, rfl⟩
  · exact hf
  · exact mapListField_fix_setKV_other (by decide) (containsKV_of_lookupKV hl) hf

theorem cleanParticipant_fix_pres_coerce :
    ∀ x y, cleanParticipant x = .ok x → coerceParticipant x = .ok y →
      cleanParticipant y = .ok y := by
  intro x y hf h
  cases x with
  | obj kvs =>
    have h0 : mapListField true "optionalRQ" coerceOp (.obj (coerceNo kvs)) = .ok y := h
    have hf1 : cleanParticipant (.obj (coerceNo kvs)) = .ok (.obj (coerceNo kvs)) := by
      rcases coerceNo_shape kvs with hs | ⟨s, hls, hds, hs⟩
      · rw [hs]; exact hf
      · rw [hs]
        exact mapListField_fix_setKV_other (by decide) (containsKV_of_lookupKV hls) hf
    exact mapListField_fix_pres cleanOp_fix_pres_coerceOp hf1 h0
  | null => cases h
  | bool b => cases h
  | int n => cases h
  | str s => cases h
  | arr xs => cases h

theorem ntfParticipant_fix_pres_coerce :
    ∀ x y, ntfParticipant x = .ok x → coerceParticipant x = .ok y →
      ntfParticipant y = .ok y := by
  intro x y hf h
  obtain ⟨kvs, heq, h1, h2, h3, hsh⟩ := ntfParticipant_ok_shape hf
  subst heq
  have hair : isObjOpt (lookupKV kvs "airline") = false ∨
      (lookupKV kvs "airline" = some (.obj []) ∧
        setKV kvs "airline" (.obj []) = kvs) := by
    rcases hsh with ⟨_, ha⟩ | ⟨al0, hl, hq⟩
    · exact Or.inl ha
    · injection hq with hq2
      have hset : setKV kvs "airline" (.obj []) = kvs := hq2.symm
      have h5 := setKV_eq_self_lookup hset
      exact Or.inr ⟨h5, hset⟩
  have h0 : mapListField true "optionalRQ" coerceOp (.obj (coerceNo kvs)) = .ok y := h
  obtain ⟨kvs1, heq, hsh2⟩ := mapListField_ok_shape h0
  injection heq with heq2
  subst heq2
  have hyshape : ∃ ykvs, y = JVal.obj ykvs ∧
      containsKV ykvs "meal_allergy" = false ∧
      containsKV ykvs "medical" = false ∧
      containsKV ykvs "scheduleImpact" = false ∧
      lookupKV ykvs "airline" = lookupKV kvs "airline" ∧
      (∀ w, setKV kvs "airline" w = kvs → setKV ykvs "airline" w = ykvs) := by
    rcases hsh2 with ⟨rfl, _⟩ | ⟨xs, ys, hl, hm, rfl⟩
    · refine ⟨coerceNo kvs, rfl, ?_, ?_, ?_, ?_, ?_⟩
      · rw [coerceNo_contains, h1]
      · rw [coerceNo_contains, h2]
      · rw [coerceNo_contains, h3]
      · exact coerceNo_lookup_ne kvs (by decide)
      · intro w hw
        rcases coerceNo_shape kvs with hs | ⟨s, hls, hds, hs⟩
        · rw [hs]; exact hw
        · rw [hs]
          exact setKV_fix_setKV_other hw (by decide) (containsKV_of_lookupKV hls)
    · refine ⟨setKV (coerceNo kvs) "optionalRQ" (.arr ys), rfl, ?_, ?_, ?_, ?_, ?_⟩
      · rw [containsKV_setKV_ne _ _ (by decide), coerceNo_contains, h1]
      · rw [containsKV_setKV_ne _ _ (by decide), coerceNo_contains, h2]
      · rw [containsKV_setKV_ne _ _ (by decide), coerceNo_contains, h3]
      · rw [lookupKV_setKV_ne _ _ (by decide)]
        exact coerceNo_lookup_ne kvs (by decide)
      · intro w hw
        have hw1 : setKV (coerceNo kvs) "airline" w = coerceNo kvs := by
          rcases coerceNo_shape kvs with hs | ⟨s, hls, hds, hs⟩
          · rw [hs]; exact hw
          · rw [hs]
            exact setKV_fix_setKV_other hw (by decide) (containsKV_of_lookupKV hls)
        exact setKV_fix_setKV_other hw1 (by decide) (containsKV_of_lookupKV hl)
  obtain ⟨ykvs, rfl, hy1, hy2, hy3, hyair, hyset⟩ := hyshape
  rcases hair with ha | ⟨ha, hset⟩
  · exact ntfParticipant_ok_build_nonobj hy1 hy2 hy3 (by rw [hyair]; exact ha)
  · have := ntfParticipant_ok_build_emptyobj hy1 hy2 hy3 (by rw [hyair]; exact ha)
    rw [hyset _ hset] at this
    exact this

/-! ## Fixpoints of the course body of normalize_course_structure -/

theorem ncsAliasStep_absent {sk ek : String}
    {st : List (String × JVal) × JVal × JVal}
    (hs : containsKV st.1 sk = false) (he : containsKV st.1 ek = false) :
    ncsAliasStep sk ek st = st := by
  obtain ⟨kvs, sv, ev⟩ := st
  simp only [ncsAliasStep, lookupKV_eq_none_of_not_contains hs,
    lookupKV_eq_none_of_not_contains he, Option.getD_none, pyTruthy,
    Bool.false_and, eraseKV_of_not_contains hs]
  simp [eraseKV_of_not_contains he, eraseKV_of_not_contains hs]

theorem ncsAliasStep_fst (sk ek : String) (st : List (String × JVal) × JVal × JVal) :
    (ncsAliasStep sk ek st).1 = eraseKV (eraseKV st.1 sk) ek := rfl

theorem ncsAliasStep_sv_mono {sk ek : String}
    {st : List (String × JVal) × JVal × JVal}
    (h : pyTruthy (ncsAliasStep sk ek st).2.1 = false) :
    pyTruthy st.2.1 = false := by
  by_cases hc : (pyTruthy ((lookupKV st.1 sk).getD .null) && !pyTruthy st.2.1) = true
  · have hc2 := hc
    rw [Bool.and_eq_true] at hc2
    obtain ⟨_, h2⟩ := hc2
    cases h3 : pyTruthy st.2.1
    · rfl
    · rw [h3] at h2; cases h2
  · have h2 : (ncsAliasStep sk ek st).2.1 = st.2.1 := by
      simp only [ncsAliasStep, if_neg hc]
    rw [h2] at h
    exact h

theorem ncsAliasStep_ev_mono {sk ek : String}
    {st : List (String × JVal) × JVal × JVal}
    (h : pyTruthy (ncsAliasStep sk ek st).2.2 = false) :
    pyTruthy st.2.2 = false := by
  by_cases hc : (pyTruthy ((lookupKV st.1 ek).getD .null) && !pyTruthy st.2.2) = true
  · have hc2 := hc
    rw [Bool.and_eq_true] at hc2
    obtain ⟨_, h2⟩ := hc2
    cases h3 : pyTruthy st.2.2
    · rfl
    · rw [h3] at h2; cases h2
  · have h2 : (ncsAliasStep sk ek st).2.2 = st.2.2 := by
      simp only [ncsAliasStep, if_neg hc]
    rw [h2] at h
    exact h

theorem ncsAliases_fst (kvs : List (String × JVal)) (sv ev : JVal) :
    (ncsAliases kvs sv ev).1 = eraseAliases kvs := rfl

theorem ncsAliases_sv_mono {kvs : List (String × JVal)} {sv ev : JVal}
    (h : pyTruthy (ncsAliases kvs sv ev).2.1 = false) : pyTruthy sv = false :=
  ncsAliasStep_sv_mono (ncsAliasStep_sv_mono (ncsAliasStep_sv_mono h))

theorem ncsAliases_ev_mono {kvs : List (String × JVal)} {sv ev : JVal}
    (h : pyTruthy (ncsAliases kvs sv ev).2.2 = false) : pyTruthy ev = false :=
  ncsAliasStep_ev_mono (ncsAliasStep_ev_mono (ncsAliasStep_ev_mono h))

theorem eraseAliases_contains_ne {kvs : List (String × JVal)} {k : String}
    (h1 : k ≠ "periodFrom") (h2 : k ≠ "periodTo") (h3 : k ≠ "periodStart")
    (h4 : k ≠ "periodEnd") (h5 : k ≠ "startDate") (h6 : k ≠ "endDate") :
    containsKV (eraseAliases kvs) k = containsKV kvs k := by
  unfold eraseAliases
  rw [containsKV_eraseKV_ne _ h6, containsKV_eraseKV_ne _ h5,
    containsKV_eraseKV_ne _ h4, containsKV_eraseKV_ne _ h3,
    containsKV_eraseKV_ne _ h2, containsKV_eraseKV_ne _ h1]

theorem eraseAliases_lookup_ne {kvs : List (String × JVal)} {k : String}
    (h1 : k ≠ "periodFrom") (h2 : k ≠ "periodTo") (h3 : k ≠ "periodStart")
    (h4 : k ≠ "periodEnd") (h5 : k ≠ "startDate") (h6 : k ≠ "endDate") :
    lookupKV (eraseAliases kvs) k = lookupKV kvs k := by
  unfold eraseAliases
  rw [lookupKV_eraseKV_ne _ h6, lookupKV_eraseKV_ne _ h5,
    lookupKV_eraseKV_ne _ h4, lookupKV_eraseKV_ne _ h3,
    lookupKV_eraseKV_ne _ h2, lookupKV_eraseKV_ne _ h1]

theorem eraseAliases_no_aliases (kvs : List (String × JVal)) :
    containsKV (eraseAliases kvs) "periodFrom" = false ∧
    containsKV (eraseAliases kvs) "periodTo" = false ∧
    containsKV (eraseAliases kvs) "periodStart" = false ∧
    containsKV (eraseAliases kvs) "periodEnd" = false ∧
    containsKV (eraseAliases kvs) "startDate" = false ∧
    containsKV (eraseAliases kvs) "endDate" = false := by
  unfold eraseAliases
  refine ⟨?_, ?_, ?_, ?_, ?_, ?_⟩
  · rw [containsKV_eraseKV_ne _ (by decide), containsKV_eraseKV_ne _ (by decide),
      containsKV_eraseKV_ne _ (by decide), containsKV_eraseKV_ne _ (by decide),
      containsKV_eraseKV_ne _ (by decide), containsKV_eraseKV_self]
  · rw [containsKV_eraseKV_ne _ (by decide), containsKV_eraseKV_ne _ (by decide),
      containsKV_eraseKV_ne _ (by decide), containsKV_eraseKV_ne _ (by decide),
      containsKV_eraseKV_self]
  · rw [containsKV_eraseKV_ne _ (by decide), containsKV_eraseKV_ne _ (by decide),
      containsKV_eraseKV_ne _ (by decide), containsKV_eraseKV_self]
  · rw [containsKV_eraseKV_ne _ (by decide), containsKV_eraseKV_ne _ (by decide),
      containsKV_eraseKV_self]
  · rw [containsKV_eraseKV_ne _ (by decide), containsKV_eraseKV_self]
  · rw [containsKV_eraseKV_self]

theorem pyOrEmptyStr_idem (v : JVal) : pyOrEmptyStr (pyOrEmptyStr v) = pyOrEmptyStr v := by
  unfold pyOrEmptyStr
  by_cases h : pyTruthy v = true
  · rw [if_pos h, if_pos h]
  · rw [if_neg h]
    simp [pyTruthy]

theorem pyOrEmptyStr_truthy {v : JVal} (h : pyTruthy v = true) :
    pyTruthy (pyOrEmptyStr v) = true := by
  unfold pyOrEmptyStr
  rw [if_pos h]
  exact h

theorem ncsHoist_of_hoistOk {kvs : List (String × JVal)} (hh : hoistOkP kvs) :
    ncsHoist kvs = kvs := by
  cases hl : lookupKV kvs "period" with
  | none => simp [ncsHoist, hl]
  | some v =>
    cases v with
    | obj pk =>
      simp only [ncsHoist, hl]
      cases hc : containsKV pk "participants" with
      | false => simp [hc]
      | true =>
        rw [hh pk hl hc]
        simp
    | null => simp [ncsHoist, hl]
    | bool b => simp [ncsHoist, hl]
    | int n => simp [ncsHoist, hl]
    | str s => simp [ncsHoist, hl]
    | arr xs => simp [ncsHoist, hl]

theorem ncsHoist_shape (kvs0 : List (String × JVal)) :
    ncsHoist kvs0 = kvs0 ∨
    (∃ pk, lookupKV kvs0 "period" = some (.obj pk) ∧
      ncsHoist kvs0 = setKV (setKV kvs0 "period" (.obj (eraseKV pk "participants")))
        "participants" ((lookupKV pk "participants").getD .null)) := by
  cases hl : lookupKV kvs0 "period" with
  | none => exact Or.inl (by simp [ncsHoist, hl])
  | some v =>
    cases v with
    | obj pk =>
      by_cases hc : (containsKV pk "participants" && !containsKV kvs0 "participants") = true
      · refine Or.inr ⟨pk, rfl, ?_⟩
        simp only [ncsHoist, hl]
        rw [if_pos hc]
      · exact Or.inl (by simp only [ncsHoist, hl]; rw [if_neg hc])
    | null => exact Or.inl (by simp [ncsHoist, hl])
    | bool b => exact Or.inl (by simp [ncsHoist, hl])
    | int n => exact Or.inl (by simp [ncsHoist, hl])
    | str s => exact Or.inl (by simp [ncsHoist, hl])
    | arr xs => exact Or.inl (by simp [ncsHoist, hl])

theorem ncsHoist_hoistOk (kvs0 : List (String × JVal)) : hoistOkP (ncsHoist kvs0) := by
  rcases ncsHoist_shape kvs0 with heq | ⟨pk, hl, heq⟩
  · rw [heq]
    intro pk2 hl2 hc2
    have h3 : (if (containsKV pk2 "participants" && !containsKV kvs0 "participants") = true
        then setKV (setKV kvs0 "period" (.obj (eraseKV pk2 "participants")))
          "participants" ((lookupKV pk2 "participants").getD .null)
        else kvs0) = kvs0 := by
      have h5 : ncsHoist kvs0 = (if (containsKV pk2 "participants" &&
          !containsKV kvs0 "participants") = true
          then setKV (setKV kvs0 "period" (.obj (eraseKV pk2 "participants")))
            "participants" ((lookupKV pk2 "participants").getD .null)
          else kvs0) := by
        simp only [ncsHoist, hl2]
      rw [← h5, heq]
    by_cases hc : (containsKV pk2 "participants" && !containsKV kvs0 "participants") = true
    · exfalso
      rw [if_pos hc] at h3
      have hc3 := hc
      rw [Bool.and_eq_true] at hc3
      have h4 := congrArg (fun l => containsKV l "participants") h3
      simp only [containsKV_setKV_self] at h4
      rw [← h4] at hc3
      simp at hc3
    · have hc3 := hc
      rw [Bool.and_eq_true] at hc3
      rw [hc2] at hc3
      simp only [not_and, Bool.not_eq_true, Bool.not_eq_false] at hc3
      cases hcc : containsKV kvs0 "participants" with
      | true => rfl
      | false =>
        exfalso
        rw [hcc] at hc3
        simp at hc3
  · rw [heq]
    intro pk2 hl2 _
    rw [containsKV_setKV_self]

theorem ncsCourse_eval_some {kvs0 : List (String × JVal)}
    {pkvs : List (String × JVal)} (hnp : ncsPeriodObj (ncsHoist kvs0) = some pkvs) :
    ncsCourse (.obj kvs0) = ncsFinish (ncsAliases (ncsHoist kvs0)
      ((lookupKV pkvs "start").getD .null) ((lookupKV pkvs "end").getD .null)) := by
  simp only [ncsCourse, hnp]

theorem ncsCourse_eval_none {kvs0 : List (String × JVal)}
    (hnp : ncsPeriodObj (ncsHoist kvs0) = none) :
    ncsCourse (.obj kvs0) = .error "AttributeError" := by
  simp only [ncsCourse, hnp]

theorem periodOkP_elim_eq {kvs pk : List (String × JVal)} (hp : periodOkP kvs)
    (hl : lookupKV kvs "period" = some (.obj pk))
    (htv : pyTruthy (JVal.obj pk) = true)
    (hcond : pyTruthy ((lookupKV pk "start").getD .null) = true ∨
      pyTruthy ((lookupKV pk "end").getD .null) = true) :
    setKV kvs "period"
      (.obj [("start", pyOrEmptyStr ((lookupKV pk "start").getD .null)),
        ("end", pyOrEmptyStr ((lookupKV pk "end").getD .null))]) = kvs := by
  unfold periodOkP at hp
  rw [hl] at hp
  have hp2 : (if pyTruthy (JVal.obj pk) = true then
      (if pyTruthy ((lookupKV pk "start").getD .null) = true ∨
          pyTruthy ((lookupKV pk "end").getD .null) = true then
        setKV kvs "period"
          (.obj [("start", pyOrEmptyStr ((lookupKV pk "start").getD .null)),
            ("end", pyOrEmptyStr ((lookupKV pk "end").getD .null))]) = kvs
      else True)
    else True) := hp
  rw [if_pos htv, if_pos hcond] at hp2
  exact hp2

theorem periodOkP_elim_obj {kvs : List (String × JVal)} {v : JVal}
    (hp : periodOkP kvs) (hl : lookupKV kvs "period" = some v)
    (htv : pyTruthy v = true) : isObjOpt (some v) = true := by
  unfold periodOkP at hp
  rw [hl] at hp
  cases v with
  | obj pk => rfl
  | null => cases htv
  | bool b =>
    have hp2 : (if pyTruthy (JVal.bool b) = true then False else True) := hp
    rw [if_pos htv] at hp2
    cases hp2
  | int n =>
    have hp2 : (if pyTruthy (JVal.int n) = true then False else True) := hp
    rw [if_pos htv] at hp2
    cases hp2
  | str s =>
    have hp2 : (if pyTruthy (JVal.str s) = true then False else True) := hp
    rw [if_pos htv] at hp2
    cases hp2
  | arr xs =>
    have hp2 : (if pyTruthy (JVal.arr xs) = true then False else True) := hp
    rw [if_pos htv] at hp2
    cases hp2

theorem periodOkP_intro {kvs : List (String × JVal)}
    (h1 : ∀ pk, lookupKV kvs "period" = some (.obj pk) →
      pyTruthy (JVal.obj pk) = true →
      (pyTruthy ((lookupKV pk "start").getD .null) = true ∨
        pyTruthy ((lookupKV pk "end").getD .null) = true) →
      setKV kvs "period"
        (.obj [("start", pyOrEmptyStr ((lookupKV pk "start").getD .null)),
          ("end", pyOrEmptyStr ((lookupKV pk "end").getD .null))]) = kvs)
    (h2 : ∀ v, lookupKV kvs "period" = some v → pyTruthy v = true →
      isObjOpt (some v) = true) :
    periodOkP kvs := by
  unfold periodOkP
  cases hl : lookupKV kvs "period" with
  | none => trivial
  | some v =>
    by_cases htv : pyTruthy v = true
    · cases v with
      | obj pk =>
        show (if pyTruthy (JVal.obj pk) = true then
            (if pyTruthy ((lookupKV pk "start").getD .null) = true ∨
                pyTruthy ((lookupKV pk "end").getD .null) = true then
              setKV kvs "period"
                (.obj [("start", pyOrEmptyStr ((lookupKV pk "start").getD .null)),
                  ("end", pyOrEmptyStr ((lookupKV pk "end").getD .null))]) = kvs
            else True)
          else True)
        rw [if_pos htv]
        by_cases hcond : (pyTruthy ((lookupKV pk "start").getD .null) = true ∨
            pyTruthy ((lookupKV pk "end").getD .null) = true)
        · rw [if_pos hcond]
          exact h1 pk hl htv hcond
        · rw [if_neg hcond]
          trivial
      | null => cases htv
      | bool b =>
        have h3 := h2 _ hl htv
        simp [isObjOpt] at h3
      | int n =>
        have h3 := h2 _ hl htv
        simp [isObjOpt] at h3
      | str s =>
        have h3 := h2 _ hl htv
        simp [isObjOpt] at h3
      | arr xs =>
        have h3 := h2 _ hl htv
        simp [isObjOpt] at h3
    · show (if pyTruthy v = true then _ else True)
      rw [if_neg htv]
      trivial

theorem ncsAliases_absent {kvs : List (String × JVal)}
    (a1 : containsKV kvs "periodFrom" = false) (a2 : containsKV kvs "periodTo" = false)
    (a3 : containsKV kvs "periodStart" = false) (a4 : containsKV kvs "periodEnd" = false)
    (a5 : containsKV kvs "startDate" = false) (a6 : containsKV kvs "endDate" = false)
    (sv ev : JVal) : ncsAliases kvs sv ev = (kvs, sv, ev) := by
  unfold ncsAliases
  rw [show ncsAliasStep "periodFrom" "periodTo" (kvs, sv, ev) = (kvs, sv, ev) from
    ncsAliasStep_absent a1 a2]
  rw [show ncsAliasStep "periodStart" "periodEnd" (kvs, sv, ev) = (kvs, sv, ev) from
    ncsAliasStep_absent a3 a4]
  rw [show ncsAliasStep "startDate" "endDate" (kvs, sv, ev) = (kvs, sv, ev) from
    ncsAliasStep_absent a5 a6]

theorem ncsCourse_of_fixed {kvs : List (String × JVal)} (h : NCSFixed kvs) :
    ncsCourse (.obj kvs) = .ok (.obj kvs) := by
  obtain ⟨a1, a2, a3, a4, a5, a6, hh, hp⟩ := h
  have hhoist : ncsHoist kvs = kvs := ncsHoist_of_hoistOk hh
  cases hl : lookupKV kvs "period" with
  | none =>
    have hnp : ncsPeriodObj (ncsHoist kvs) = some [] := by
      rw [hhoist]
      simp [ncsPeriodObj, hl]
    rw [ncsCourse_eval_some hnp, hhoist,
      ncsAliases_absent a1 a2 a3 a4 a5 a6]
    rfl
  | some v =>
    by_cases htv : pyTruthy v = true
    · have hobj := periodOkP_elim_obj hp hl htv
      cases v with
      | obj pk =>
        have hnp : ncsPeriodObj (ncsHoist kvs) = some pk := by
          rw [hhoist]
          simp [ncsPeriodObj, hl, htv]
        rw [ncsCourse_eval_some hnp, hhoist,
          ncsAliases_absent a1 a2 a3 a4 a5 a6]
        unfold ncsFinish
        by_cases hcond : (pyTruthy ((lookupKV pk "start").getD .null) ||
            pyTruthy ((lookupKV pk "end").getD .null)) = true
        · rw [if_pos hcond]
          have hcond2 := hcond
          rw [Bool.or_eq_true] at hcond2
          rw [periodOkP_elim_eq hp hl htv hcond2]
        · rw [if_neg hcond]
      | null => cases htv
      | bool b => simp [isObjOpt] at hobj
      | int n => simp [isObjOpt] at hobj
      | str s => simp [isObjOpt] at hobj
      | arr xs => simp [isObjOpt] at hobj
    · have hnp : ncsPeriodObj (ncsHoist kvs) = some [] := by
        rw [hhoist]
        simp [ncsPeriodObj, hl, htv]
      rw [ncsCourse_eval_some hnp, hhoist,
        ncsAliases_absent a1 a2 a3 a4 a5 a6]
      rfl

theorem ncsPeriodObj_obj_truthy {kvs pk : List (String × JVal)}
    (hl : lookupKV kvs "period" = some (.obj pk))
    (htv : pyTruthy (JVal.obj pk) = true) : ncsPeriodObj kvs = some pk := by
  simp [ncsPeriodObj, hl, htv]

theorem ncsPeriodObj_nonobj_truthy {kvs : List (String × JVal)} {v : JVal}
    (hl : lookupKV kvs "period" = some v) (htv : pyTruthy v = true)
    (hno : isObjOpt (some v) = false) : ncsPeriodObj kvs = none := by
  cases v with
  | obj pk => simp [isObjOpt] at hno
  | null => cases htv
  | bool b => simp [ncsPeriodObj, hl, htv]
  | int n => simp [ncsPeriodObj, hl, htv]
  | str s => simp [ncsPeriodObj, hl, htv]
  | arr xs => simp [ncsPeriodObj, hl, htv]

theorem ncsCourse_ok_fixed {kvs0 : List (String × JVal)} {q : JVal}
    (h : ncsCourse (.obj kvs0) = .ok q) :
    ∃ qkvs, q = .obj qkvs ∧ NCSFixed qkvs := by
  have hsafe : hoistOkP (ncsHoist kvs0) := ncsHoist_hoistOk kvs0
  cases hnp : ncsPeriodObj (ncsHoist kvs0) with
  | none => rw [ncsCourse_eval_none hnp] at h; cases h
  | some pkvs =>
    rw [ncsCourse_eval_some hnp] at h
    have hlq : lookupKV (eraseAliases (ncsHoist kvs0)) "period" =
        lookupKV (ncsHoist kvs0) "period" :=
      eraseAliases_lookup_ne (by decide) (by decide) (by decide) (by decide)
        (by decide) (by decide)
    have hcq : containsKV (eraseAliases (ncsHoist kvs0)) "participants" =
        containsKV (ncsHoist kvs0) "participants" :=
      eraseAliases_contains_ne (by decide) (by decide) (by decide) (by decide)
        (by decide) (by decide)
    obtain ⟨e1, e2, e3, e4, e5, e6⟩ := eraseAliases_no_aliases (ncsHoist kvs0)
    unfold ncsFinish at h
    by_cases hcond : (pyTruthy (ncsAliases (ncsHoist kvs0)
        ((lookupKV pkvs "start").getD .null)
        ((lookupKV pkvs "end").getD .null)).2.1 ||
        pyTruthy (ncsAliases (ncsHoist kvs0)
        ((lookupKV pkvs "start").getD .null)
        ((lookupKV pkvs "end").getD .null)).2.2) = true
    · rw [if_pos hcond] at h
      injection h with h2
      refine ⟨_, h2.symm, ?_⟩
      rw [ncsAliases_fst] at *
      constructor
      · rw [containsKV_setKV_ne _ _ (by decide), e1]
      constructor
      · rw [containsKV_setKV_ne _ _ (by decide), e2]
      constructor
      · rw [containsKV_setKV_ne _ _ (by decide), e3]
      constructor
      · rw [containsKV_setKV_ne _ _ (by decide), e4]
      constructor
      · rw [containsKV_setKV_ne _ _ (by decide), e5]
      constructor
      · rw [containsKV_setKV_ne _ _ (by decide), e6]
      constructor
      · intro pk2 hl2 hc2
        rw [lookupKV_setKV_self] at hl2
        injection hl2 with hl3
        injection hl3 with hl4
        rw [← hl4] at hc2
        simp [containsKV] at hc2
      · apply periodOkP_intro
        · intro pk hl2 htv2 hcond2
          rw [lookupKV_setKV_self] at hl2
          injection hl2 with hl3
          injection hl3 with hl4
          subst hl4
          have hs1 : (lookupKV [("start", pyOrEmptyStr (ncsAliases (ncsHoist kvs0)
              ((lookupKV pkvs "start").getD .null)
              ((lookupKV pkvs "end").getD .null)).2.1),
              ("end", pyOrEmptyStr (ncsAliases (ncsHoist kvs0)
              ((lookupKV pkvs "start").getD .null)
              ((lookupKV pkvs "end").getD .null)).2.2)] "start").getD JVal.null =
              pyOrEmptyStr (ncsAliases (ncsHoist kvs0)
              ((lookupKV pkvs "start").getD .null)
              ((lookupKV pkvs "end").getD .null)).2.1 := by
            simp [lookupKV]
          have hs2 : (lookupKV [("start", pyOrEmptyStr (ncsAliases (ncsHoist kvs0)
              ((lookupKV pkvs "start").getD .null)
              ((lookupKV pkvs "end").getD .null)).2.1),
              ("end", pyOrEmptyStr (ncsAliases (ncsHoist kvs0)
              ((lookupKV pkvs "start").getD .null)
              ((lookupKV pkvs "end").getD .null)).2.2)] "end").getD JVal.null =
              pyOrEmptyStr (ncsAliases (ncsHoist kvs0)
              ((lookupKV pkvs "start").getD .null)
              ((lookupKV pkvs "end").getD .null)).2.2 := by
            simp [lookupKV]
          rw [hs1, hs2, pyOrEmptyStr_idem, pyOrEmptyStr_idem, setKV_setKV_self]
        · intro v hl2 _
          rw [lookupKV_setKV_self] at hl2
          injection hl2 with hl3
          rw [← hl3]
          rfl
    · rw [if_neg hcond] at h
      injection h with h2
      refine ⟨_, h2.symm, ?_⟩
      rw [ncsAliases_fst] at *
      have hcond2 : pyTruthy (ncsAliases (ncsHoist kvs0)
          ((lookupKV pkvs "start").getD .null)
          ((lookupKV pkvs "end").getD .null)).2.1 = false ∧
          pyTruthy (ncsAliases (ncsHoist kvs0)
          ((lookupKV pkvs "start").getD .null)
          ((lookupKV pkvs "end").getD .null)).2.2 = false := by
        constructor
        · cases hx : pyTruthy (ncsAliases (ncsHoist kvs0)
              ((lookupKV pkvs "start").getD .null)
              ((lookupKV pkvs "end").getD .null)).2.1 with
          | false => rfl
          | true => exact absurd (by rw [hx]; rfl) hcond
        · cases hx : pyTruthy (ncsAliases (ncsHoist kvs0)
              ((lookupKV pkvs "start").getD .null)
              ((lookupKV pkvs "end").getD .null)).2.2 with
          | false => rfl
          | true => exact absurd (by rw [hx]; simp) hcond
      have hsv0 : pyTruthy ((lookupKV pkvs "start").getD .null) = false :=
        ncsAliases_sv_mono hcond2.1
      have hev0 : pyTruthy ((lookupKV pkvs "end").getD .null) = false :=
        ncsAliases_ev_mono hcond2.2
      refine ⟨e1, e2, e3, e4, e5, e6, ?_, ?_⟩
      · intro pk2 hl2 hc2
        rw [hlq] at hl2
        rw [hcq]
        exact hsafe pk2 hl2 hc2
      · apply periodOkP_intro
        · intro pk hl2 htv2 hcond3
          exfalso
          rw [hlq] at hl2
          have := ncsPeriodObj_obj_truthy hl2 htv2
          rw [hnp] at this
          injection this with h4
          subst h4
          rcases hcond3 with hc3 | hc3
          · rw [hsv0] at hc3; cases hc3
          · rw [hev0] at hc3; cases hc3
        · intro v hl2 htv2
          rw [hlq] at hl2
          cases hio : isObjOpt (some v) with
          | true => rfl
          | false =>
            have := ncsPeriodObj_nonobj_truthy hl2 htv2 hio
            rw [hnp] at this
            cases this

theorem NCSFixed_setKV_participants {kvs : List (String × JVal)} {w : JVal}
    (h : NCSFixed kvs) (hc : containsKV kvs "participants" = true) :
    NCSFixed (setKV kvs "participants" w) := by
  obtain ⟨a1, a2, a3, a4, a5, a6, _, hp⟩ := h
  refine ⟨?_, ?_, ?_, ?_, ?_, ?_, ?_, ?_⟩
  · rw [containsKV_setKV_ne _ _ (by decide), a1]
  · rw [containsKV_setKV_ne _ _ (by decide), a2]
  · rw [containsKV_setKV_ne _ _ (by decide), a3]
  · rw [containsKV_setKV_ne _ _ (by decide), a4]
  · rw [containsKV_setKV_ne _ _ (by decide), a5]
  · rw [containsKV_setKV_ne _ _ (by decide), a6]
  · intro pk2 _ _
    rw [containsKV_setKV_self]
  · have hlp : lookupKV (setKV kvs "participants" w) "period" =
        lookupKV kvs "period" := lookupKV_setKV_ne kvs _ (by decide)
    apply periodOkP_intro
    · intro pk hl2 htv2 hcond2
      rw [hlp] at hl2
      have heq := periodOkP_elim_eq hp hl2 htv2 hcond2
      exact setKV_fix_setKV_other heq (by decide) hc
    · intro v hl2 htv2
      rw [hlp] at hl2
      exact periodOkP_elim_obj hp hl2 htv2

theorem ncsCourse_idem : ∀ x y, ncsCourse x = .ok y → ncsCourse y = .ok y := by
  intro x y h
  cases x with
  | obj kvs0 =>
    obtain ⟨qkvs, rfl, hfix⟩ := ncsCourse_ok_fixed h
    exact ncsCourse_of_fixed hfix
  | null => cases h
  | bool b => cases h
  | int n => cases h
  | str s => cases h
  | arr xs => cases h

theorem ncsCourse_fix_pres_participants (body : JVal → Except String JVal) :
    ∀ x y, ncsCourse x = .ok x → mapListField true "participants" body x = .ok y →
      ncsCourse y = .ok y := by
  intro x y hf hg
  obtain ⟨kvs, rfl, hsh⟩ := mapListField_ok_shape hg
  obtain ⟨qkvs, heq, hfix⟩ := ncsCourse_ok_fixed hf
  injection heq with heq2
  subst heq2
  rcases hsh with ⟨rfl, _⟩ | ⟨xs, ys, hl, hm, rfl⟩
  · exact hf
  · exact ncsCourse_of_fixed
      (NCSFixed_setKV_participants hfix (containsKV_of_lookupKV hl))

theorem cleanCourse_idem : ∀ x y, cleanCourse x = .ok y → cleanCourse y = .ok y :=
  fun _ _ h => mapListField_idem cleanParticipant_idem h

theorem ntfCourse_idem : ∀ x y, ntfCourse x = .ok y → ntfCourse y = .ok y :=
  fun _ _ h => mapListField_idem ntfParticipant_idem h

theorem coerceCourse_idem : ∀ x y, coerceCourse x = .ok y → coerceCourse y = .ok y :=
  fun _ _ h => mapListField_idem coerceParticipant_idem h

theorem cleanCourse_fix_pres_ntf :
    ∀ x y, cleanCourse x = .ok x → ntfCourse x = .ok y → cleanCourse y = .ok y :=
  fun _ _ hf hg => mapListField_fix_pres cleanParticipant_fix_pres_ntf hf hg

theorem cleanCourse_fix_pres_coerce :
    ∀ x y, cleanCourse x = .ok x → coerceCourse x = .ok y → cleanCourse y = .ok y :=
  fun _ _ hf hg => mapListField_fix_pres cleanParticipant_fix_pres_coerce hf hg

theorem ntfCourse_fix_pres_coerce :
    ∀ x y, ntfCourse x = .ok x → coerceCourse x = .ok y → ntfCourse y = .ok y :=
  fun _ _ hf hg => mapListField_fix_pres ntfParticipant_fix_pres_coerce hf hg

theorem ncsCourse_fix_pres_clean :
    ∀ x y, ncsCourse x = .ok x → cleanCourse x = .ok y → ncsCourse y = .ok y :=
  ncsCourse_fix_pres_participants cleanParticipant

theorem ncsCourse_fix_pres_ntf :
    ∀ x y, ncsCourse x = .ok x → ntfCourse x = .ok y → ncsCourse y = .ok y :=
  ncsCourse_fix_pres_participants ntfParticipant

theorem ncsCourse_fix_pres_coerce :
    ∀ x y, ncsCourse x = .ok x → coerceCourse x = .ok y → ncsCourse y = .ok y :=
  ncsCourse_fix_pres_participants coerceParticipant

/-- Idempotence of the full repair sequence: the state after one successful
application is a fixpoint of the whole sequence. -/
theorem repairSeq_idem {d d2 : JVal} (h : repairSeq d = .ok d2) :
    repairSeq d2 = .ok d2 := by
  unfold repairSeq at h
  cases hncs : normalize_course_structure d with
  | error e => rw [hncs] at h; cases h
  | ok e1 =>
    rw [hncs] at h
    have ha : (match clean_optionalrq_status e1 with
      | .error e => (.error e : Except String JVal)
      | .ok d1 =>
        match normalize_text_fields d1 with
        | .error e => .error e
        | .ok d3 => coerce_numeric_fields d3) = .ok d2 := h
    cases hclean : clean_optionalrq_status e1 with
    | error e => rw [hclean] at ha; cases ha
    | ok e2 =>
      rw [hclean] at ha
      have hb : (match normalize_text_fields e2 with
        | .error e => (.error e : Except String JVal)
        | .ok d3 => coerce_numeric_fields d3) = .ok d2 := ha
      cases hntf : normalize_text_fields e2 with
      | error e => rw [hntf] at hb; cases hb
      | ok e3 =>
        rw [hntf] at hb
        have hco : coerce_numeric_fields e3 = .ok d2 := hb
        have f1a : normalize_course_structure e1 = .ok e1 :=
          mapListField_idem ncsCourse_idem hncs
        have f1b : normalize_course_structure e2 = .ok e2 :=
          mapListField_fix_pres ncsCourse_fix_pres_clean f1a hclean
        have f1c : normalize_course_structure e3 = .ok e3 :=
          mapListField_fix_pres ncsCourse_fix_pres_ntf f1b hntf
        have f1d : normalize_course_structure d2 = .ok d2 :=
          mapListField_fix_pres ncsCourse_fix_pres_coerce f1c hco
        have f2a : clean_optionalrq_status e2 = .ok e2 :=
          mapListField_idem cleanCourse_idem hclean
        have f2b : clean_optionalrq_status e3 = .ok e3 :=
          mapListField_fix_pres cleanCourse_fix_pres_ntf f2a hntf
        have f2c : clean_optionalrq_status d2 = .ok d2 :=
          mapListField_fix_pres cleanCourse_fix_pres_coerce f2b hco
        have f3a : normalize_text_fields e3 = .ok e3 :=
          mapListField_idem ntfCourse_idem hntf
        have f3b : normalize_text_fields d2 = .ok d2 :=
          mapListField_fix_pres ntfCourse_fix_pres_coerce f3a hco
        have f4 : coerce_numeric_fields d2 = .ok d2 :=
          mapListField_idem coerceCourse_idem hco
        simp only [repairSeq, f1d, f2c, f3b, f4]

/-! ## Claims about the Schema Repairer and validation (C3, C4, C5, C8) -/

/-- C3: the spec says every repair pass is total and never raises, treating
missing fields as empty.  The code is a slip: normalize_text_fields calls
the helper `to_str`, which is not defined anywhere in the repository, so
the pass (and hence the repair sequence) raises NameError on any document
whose participant carries a meal_allergy (or medical / scheduleImpact /
populated airline) field.  This theorem evaluates the pass at such a
failing input. -/
theorem claim_C3 :
    normalize_text_fields (JVal.obj [("courses", .arr [.obj [("participants",
      .arr [.obj [("meal_allergy", .str "えび")]])]])]) = .error toStrNameError ∧
    repairSeq (JVal.obj [("courses", .arr [.obj [("participants",
      .arr [.obj [("meal_allergy", .str "えび")]])]])]) = .error toStrNameError :=
  ⟨rfl, rfl⟩

/-- C4: the Schema Repairer sequence is idempotent: applying the ordered
sequence (normalize_course_structure, clean_optionalrq_status,
normalize_text_fields, coerce_numeric_fields) twice yields the same result
as applying it once, for every CandidateDocument. -/
theorem claim_C4 (d : JVal) : (repairSeq d).bind repairSeq = repairSeq d := by
  cases h : repairSeq d with
  | error e => rfl
  | ok d2 =>
    show repairSeq d2 = Except.ok d2
    exact repairSeq_idem h

/-- C5 counterexample: validate_schema (and is_schema_valid) do mutate
their input: with a loaded schema they apply the four repair passes to the
caller's document in place, so after the call the document holds the
repaired value, which differs from the original whenever a repair fires
(here: an optionalRQ status key is removed and pax is coerced). -/
theorem claim_C5_counterexample :
    validate_schema (fun _ => true) true
      (JVal.obj [("courses", .arr [.obj [("participants", .arr [.obj
        [("optionalRQ", .arr [.obj [("status", .str "RQ"), ("pax", .str "3")]])]])]])]) =
      .ok (JVal.obj [("courses", .arr [.obj [("participants", .arr [.obj
        [("optionalRQ", .arr [.obj [("pax", .int 3)]])]])]])]) ∧
    is_schema_valid (fun _ => true) true
      (JVal.obj [("courses", .arr [.obj [("participants", .arr [.obj
        [("optionalRQ", .arr [.obj [("status", .str "RQ"), ("pax", .str "3")]])]])]])]) =
      .ok (true, JVal.obj [("courses", .arr [.obj [("participants", .arr [.obj
        [("optionalRQ", .arr [.obj [("pax", .int 3)]])]])]])]) ∧
    (JVal.obj [("courses", .arr [.obj [("participants", .arr [.obj
        [("optionalRQ", .arr [.obj [("pax", .int 3)]])]])]])]) ≠
      (JVal.obj [("courses", .arr [.obj [("participants", .arr [.obj
        [("optionalRQ", .arr [.obj [("status", .str "RQ"), ("pax", .str "3")]])]])]])]) :=
  ⟨rfl, rfl, by simp⟩

/-- C5 amended: validate_schema mutates its input into the repaired
document (the repairs run in place before the conformance check); the
check itself adds no further change, so the document state after a
successful call is a fixpoint: calling validate_schema again returns it
unchanged.  Without a loaded schema validation is a no-op and the input is
trivially unchanged. -/
theorem claim_C5 : ∀ (check : JVal → Bool) (loaded : Bool) (d d2 : JVal),
    validate_schema check loaded d = .ok d2 →
    validate_schema check loaded d2 = .ok d2 := by
  intro check loaded d d2 h
  cases loaded with
  | false =>
    have h2 : Except.ok d = Except.ok d2 := h
    injection h2 with h3
    subst h3
    rfl
  | true =>
    have h2 : (match repairSeq d with
      | .error e => (.error e : Except String JVal)
      | .ok d3 => if check d3 then .ok d3 else .error "ValidationError") = .ok d2 := h
    cases hr : repairSeq d with
    | error e => rw [hr] at h2; cases h2
    | ok e1 =>
      rw [hr] at h2
      have h4 : (if check e1 = true then (.ok e1 : Except String JVal)
          else .error "ValidationError") = .ok d2 := h2
      by_cases hc : check e1 = true
      · rw [if_pos hc] at h4
        injection h4 with h3
        subst h3
        simp only [validate_schema, repairSeq_idem hr, hc, if_true]
      · rw [if_neg hc] at h4
        cases h4

/-- Witness for C5: the amended theorem applied at the concrete repaired
document of the counterexample. -/
theorem claim_C5_witness :
    validate_schema (fun _ => true) true
      (JVal.obj [("courses", .arr [.obj [("participants", .arr [.obj
        [("optionalRQ", .arr [.obj [("pax", .int 3)]])]])]])]) =
      .ok (JVal.obj [("courses", .arr [.obj [("participants", .arr [.obj
        [("optionalRQ", .arr [.obj [("pax", .int 3)]])]])]])]) :=
  claim_C5 (fun _ => true) true
    (JVal.obj [("courses", .arr [.obj [("participants", .arr [.obj
      [("optionalRQ", .arr [.obj [("status", .str "RQ"), ("pax", .str "3")]])]])]])])
    _ rfl

/-- C8: the Schema Repairer turns an optionalRQ entry
`name OP1 / status RQ / date 2025-09-02 / pax "2"` into
`name OP1 / date 2025-09-02 / pax 2` (status removed, all-digit pax string
coerced to the integer 2), and leaves a non-digit pax string and a
non-digit no string untouched. -/
theorem claim_C8 :
    repairSeq (JVal.obj [("courses", .arr [.obj [("participants", .arr [.obj
      [("optionalRQ", .arr [.obj [("name", .str "OP1"), ("status", .str "RQ"),
        ("date", .str "2025-09-02"), ("pax", .str "2")]])]])]])]) =
      .ok (JVal.obj [("courses", .arr [.obj [("participants", .arr [.obj
        [("optionalRQ", .arr [.obj [("name", .str "OP1"),
          ("date", .str "2025-09-02"), ("pax", .int 2)]])]])]])]) ∧
    repairSeq (JVal.obj [("courses", .arr [.obj [("participants", .arr [.obj
      [("no", .str "A1"),
       ("optionalRQ", .arr [.obj [("name", .str "OP2"),
         ("date", .str "2025-09-02"), ("pax", .str "2a")]])]])]])]) =
      .ok (JVal.obj [("courses", .arr [.obj [("participants", .arr [.obj
        [("no", .str "A1"),
         ("optionalRQ", .arr [.obj [("name", .str "OP2"),
           ("date", .str "2025-09-02"), ("pax", .str "2a")]])]])]])]) :=
  ⟨rfl, rfl⟩

/-! ## Normalizer block-structure lemmas (C2, C6) -/

theorem fcbLoop_cons (cur : CourseBlock) (ln : String) (rest : List String) :
    fcbLoop cur (ln :: rest) = fcbSealed cur ln ++ fcbLoop (fcbStep cur ln) rest := by
  cases hcm : courseMatch ln <;>
    simp [fcbLoop, fcbSealed, fcbStep, hcm]

theorem courseTokenAfter_ne_nil {cs tok : List Char}
    (h : courseTokenAfter cs = some tok) : tok ≠ [] := by
  simp only [courseTokenAfter] at h
  split at h
  next => exact Option.noConfusion h
  next hne =>
    injection h with h2
    subst h2
    intro hn
    rw [hn] at hne
    exact hne rfl

theorem courseMatchAt_ne_nil {cs tok : List Char}
    (h : courseMatchAt cs = some tok) : tok ≠ [] := by
  unfold courseMatchAt at h
  split at h
  next => exact courseTokenAfter_ne_nil h
  next =>
    split at h
    next => exact courseTokenAfter_ne_nil h
    next => exact Option.noConfusion h

theorem courseSearch_ne_nil {cs tok : List Char}
    (h : courseSearch cs = some tok) : tok ≠ [] := by
  induction cs with
  | nil => exact courseMatchAt_ne_nil h
  | cons c t ih =>
    unfold courseSearch at h
    split at h
    next h2 =>
      injection h with h3
      subst h3
      exact courseMatchAt_ne_nil h2
    next => exact ih h

theorem courseMatch_ne_empty {ln : String} {s : String}
    (h : courseMatch ln = some s) : s ≠ "" := by
  unfold courseMatch at h
  cases hs : courseSearch ln.data with
  | none => rw [hs] at h; exact Option.noConfusion h
  | some tok =>
    rw [hs] at h
    injection h with h2
    subst h2
    intro he
    exact courseSearch_ne_nil hs (congrArg String.data he)

theorem fcbStep_courseNo (cur : CourseBlock) (ln : String) :
    (fcbStep cur ln).courseNo =
      (match courseMatch ln with | some cno => cno | none => cur.courseNo) := by
  simp only [fcbStep]
  cases courseMatch ln <;> cases periodMatch ln <;>
    (try split) <;> (try split) <;> rfl

theorem fcbStep_inv (cur : CourseBlock) (ln : String)
    (hinv : cur.courseNo ≠ "" → cur.lines ≠ []) :
    (fcbStep cur ln).courseNo ≠ "" → (fcbStep cur ln).lines ≠ [] := by
  simp only [fcbStep]
  cases courseMatch ln <;> cases periodMatch ln <;>
    (try split) <;> (try split) <;> intro h <;> simp_all

theorem fcbLoop_mem_ne (lines : List String) :
    ∀ cur, ∀ b ∈ fcbLoop cur lines, b.courseNo ≠ "" := by
  induction lines with
  | nil =>
    intro cur b hb
    unfold fcbLoop at hb
    split at hb
    next hg =>
      rw [List.mem_singleton] at hb
      subst hb
      exact hg.1
    next => exact absurd hb (List.not_mem_nil b)
  | cons ln rest ih =>
    intro cur b hb
    rw [fcbLoop_cons] at hb
    rcases List.mem_append.1 hb with h1 | h2
    · unfold fcbSealed at h1
      split at h1
      next =>
        split at h1
        next => exact absurd h1 (List.not_mem_nil b)
        next hne =>
          rw [List.mem_singleton] at h1
          subst h1
          exact hne
      next => exact absurd h1 (List.not_mem_nil b)
    · exact ih (fcbStep cur ln) b h2

theorem fcbLoop_map_courseNo (lines : List String) :
    ∀ cur, (cur.courseNo ≠ "" → cur.lines ≠ []) →
    (fcbLoop cur lines).map CourseBlock.courseNo =
      (if cur.courseNo = "" then [] else [cur.courseNo]) ++ lines.filterMap courseMatch := by
  induction lines with
  | nil =>
    intro cur hinv
    unfold fcbLoop
    by_cases hc : cur.courseNo = ""
    · simp [hc]
    · have hl := hinv hc
      rw [if_pos ⟨hc, hl⟩, if_neg hc]
      simp
  | cons ln rest ih =>
    intro cur hinv
    rw [fcbLoop_cons, List.map_append, ih (fcbStep cur ln) (fcbStep_inv cur ln hinv)]
    cases hcm : courseMatch ln with
    | some cno =>
      have hcne : cno ≠ "" := courseMatch_ne_empty hcm
      have h1 : (fcbStep cur ln).courseNo = cno := by rw [fcbStep_courseNo, hcm]
      rw [h1, if_neg hcne]
      simp only [fcbSealed, hcm]
      by_cases hc0 : cur.courseNo = "" <;> simp [hc0, List.filterMap_cons, hcm]
    | none =>
      have h1 : (fcbStep cur ln).courseNo = cur.courseNo := by rw [fcbStep_courseNo, hcm]
      rw [h1]
      simp [fcbSealed, hcm, List.filterMap_cons]

theorem fcbLoop_init_skip {ln : String} (h : courseMatch ln = none) (rest : List String) :
    fcbLoop ⟨"", ("", ""), []⟩ (ln :: rest) = fcbLoop ⟨"", ("", ""), []⟩ rest := by
  rw [fcbLoop_cons]
  have h1 : fcbSealed ⟨"", ("", ""), []⟩ ln = [] := by simp [fcbSealed, h]
  have h2 : fcbStep ⟨"", ("", ""), []⟩ ln = ⟨"", ("", ""), []⟩ := by
    simp only [fcbStep, h]
    cases periodMatch ln <;> simp
  rw [h1, h2]
  simp

theorem find_course_blocks_dropWhile (lines : List String) :
    find_course_blocks lines =
      find_course_blocks (lines.dropWhile (fun l => (courseMatch l).isNone)) := by
  induction lines with
  | nil => rfl
  | cons ln rest ih =>
    by_cases h : (courseMatch ln).isNone = true
    · rw [List.dropWhile_cons]
      rw [if_pos h]
      rw [← ih]
      show fcbLoop ⟨"", ("", ""), []⟩ (ln :: rest) = fcbLoop ⟨"", ("", ""), []⟩ rest
      exact fcbLoop_init_skip (Option.isNone_iff_eq_none.1 h) rest
    · rw [List.dropWhile_cons, if_neg h]

theorem lastPeriodOf_snoc (ls : List String) (ln : String) :
    lastPeriodOf (ls ++ [ln]) =
      (match periodMatch ln with | some pe => pe | none => lastPeriodOf ls) := by
  unfold lastPeriodOf
  rw [List.filterMap_append]
  cases hp : periodMatch ln with
  | some pe => simp [List.filterMap_cons, hp, List.getLast?_concat]
  | none => simp [List.filterMap_cons, hp]

theorem fcbStep_period_inv (cur : CourseBlock) (ln : String)
    (hinv : cur.courseNo ≠ "" → cur.period = lastPeriodOf cur.lines) :
    (fcbStep cur ln).courseNo ≠ "" →
      (fcbStep cur ln).period = lastPeriodOf (fcbStep cur ln).lines := by
  simp only [fcbStep]
  cases hcm : courseMatch ln <;> cases hpm : periodMatch ln <;>
      (try split) <;> (try split) <;> intro h <;>
    simp_all [lastPeriodOf_snoc, lastPeriodOf]

theorem fcbLoop_last_period (lines : List String) :
    ∀ cur, (cur.courseNo ≠ "" → cur.period = lastPeriodOf cur.lines) →
    ∀ b ∈ fcbLoop cur lines, b.period = lastPeriodOf b.lines := by
  induction lines with
  | nil =>
    intro cur hinv b hb
    unfold fcbLoop at hb
    split at hb
    next hg =>
      rw [List.mem_singleton] at hb
      subst hb
      exact hinv hg.1
    next => exact absurd hb (List.not_mem_nil b)
  | cons ln rest ih =>
    intro cur hinv b hb
    rw [fcbLoop_cons] at hb
    rcases List.mem_append.1 hb with h1 | h2
    · unfold fcbSealed at h1
      split at h1
      next =>
        split at h1
        next => exact absurd h1 (List.not_mem_nil b)
        next hne =>
          rw [List.mem_singleton] at h1
          subst h1
          exact hinv hne
      next => exact absurd h1 (List.not_mem_nil b)
    · exact ih (fcbStep cur ln) (fcbStep_period_inv cur ln hinv) b h2

/-- C6: on every input the block segmentation emits only blocks with a
non-empty course number; the emitted course numbers are exactly the
course-line matches in input order; and lines before the first course
identifier are dropped. -/
theorem claim_C6 (lines : List String) :
    ((find_course_blocks lines).all (fun b => b.courseNo != "") = true) ∧
    (find_course_blocks lines).map CourseBlock.courseNo = lines.filterMap courseMatch ∧
    find_course_blocks lines =
      find_course_blocks (lines.dropWhile (fun l => (courseMatch l).isNone)) := by
  refine ⟨?_, ?_, find_course_blocks_dropWhile lines⟩
  · rw [List.all_eq_true]
    intro b hb
    have h := fcbLoop_mem_ne lines ⟨"", ("", ""), []⟩ b hb
    simpa using h
  · have h := fcbLoop_map_courseNo lines ⟨"", ("", ""), []⟩ (fun hc => absurd rfl hc)
    rw [if_pos rfl] at h
    simpa [find_course_blocks] using h

/-- C2 amended: period detection is last-match-wins: each emitted block
records, in both components, the final date-range match among its lines,
or ("", "") when no line of the block carries one. -/
theorem claim_C2 (lines : List String) :
    (find_course_blocks lines).all
      (fun b => b.period == lastPeriodOf b.lines) = true := by
  rw [List.all_eq_true]
  intro b hb
  have h := fcbLoop_last_period lines ⟨"", ("", ""), []⟩ (fun hc => absurd rfl hc) b hb
  simpa using h

/-- C2 counterexample: with two period lines in one block the recorded
period is the second line's range, not the first match: the first
date-range match of the block's lines is ("2025-01-01", "2025-01-02"), yet
the block records ("2025-03-03", "2025-03-04"). -/
theorem claim_C2_counterexample :
    find_course_blocks ["コースNo: A1", "2025-01-01〜2025-01-02",
        "2025-03-03〜2025-03-04"] =
      [⟨"A1", ("2025-03-03", "2025-03-04"),
        ["コースNo: A1", "2025-01-01〜2025-01-02", "2025-03-03〜2025-03-04"]⟩] ∧
    periodMatch "2025-01-01〜2025-01-02" = some ("2025-01-01", "2025-01-02") ∧
    (("2025-03-03", "2025-03-04") : String × String) ≠ ("2025-01-01", "2025-01-02") :=
  ⟨rfl, rfl, by decide⟩

theorem any_eq_not_isEmpty {α β : Type} (ps : List α) (f : α → Bool) (g : α → β) :
    ps.any f = !((ps.filter f).map g).isEmpty := by
  induction ps with
  | nil => rfl
  | cons p t ih =>
    cases hf : f p <;> simp [List.any_cons, List.filter_cons, hf, ih]

/-- C7: contains_ng_terms and find_all_ng_terms scan the same pattern
list with the same matcher, so the first returns true exactly when the
second returns a non-empty list. -/
theorem claim_C7 (text : String) :
    contains_ng_terms text = !(find_all_ng_terms text).isEmpty ∧
    (contains_ng_terms text = true ↔ find_all_ng_terms text ≠ []) := by
  have h : contains_ng_terms text = !(find_all_ng_terms text).isEmpty := by
    unfold contains_ng_terms find_all_ng_terms
    exact any_eq_not_isEmpty NG_PATTERNS _ ngGroup0
  refine ⟨h, ?_⟩
  rw [h]
  cases hfa : find_all_ng_terms text <;> simp

/-- Witness for C7 at the concrete text 座席. -/
theorem claim_C7_witness : find_all_ng_terms "座席" ≠ [] :=
  (claim_C7 "座席").2.mp rfl

/-- C9: empty input is not an error: normalization of "" yields no lines,
segmentation of no lines yields no blocks, rendering a document with an
empty course list yields "", and the whole pipeline maps "" to the empty
output text for every extractor, reviewer and schema state. -/
theorem claim_C9 :
    normalize_lines "" = [] ∧
    find_course_blocks [] = [] ∧
    render_text (.obj [("courses", .arr [])]) = .ok "" ∧
    ∀ (e : CourseBlock → Except String JVal)
      (r : CourseBlock → JVal → Except String JVal)
      (check : JVal → Bool) (loaded : Bool),
      process_text e r check loaded "" = .ok "" :=
  ⟨rfl, rfl, rfl, fun _ _ _ _ => rfl⟩

/-! ## Substring occurrence machinery for the rendered-text claims -/

theorem dropExact_some {pat cs r : List Char} :
    dropExact pat cs = some r ↔ cs = pat ++ r := by
  induction pat generalizing cs with
  | nil =>
    show some cs = some r ↔ cs = [] ++ r
    constructor
    · intro h
      cases h
      rfl
    · intro h
      exact congrArg some h
  | cons p ps ih =>
    cases cs with
    | nil =>
      constructor
      · intro h; exact Option.noConfusion h
      · intro h; exact List.noConfusion h
    | cons c t =>
      show (if c = p then dropExact ps t else none) = some r ↔ c :: t = p :: (ps ++ r)
      by_cases hc : c = p
      · subst hc
        rw [if_pos rfl]
        constructor
        · intro h; rw [ih.1 h]
        · intro h
          injection h with h1 h2
          exact ih.2 h2
      · rw [if_neg hc]
        constructor
        · intro h; exact Option.noConfusion h
        · intro h
          injection h with h1 h2
          exact absurd h1 hc

theorem litFound_iff {pat cs : List Char} :
    litFound pat cs = true ↔ ∃ l1 l2, cs = l1 ++ (pat ++ l2) := by
  induction cs with
  | nil =>
    show (dropExact pat []).isSome = true ↔ _
    constructor
    · intro h
      cases hd : dropExact pat [] with
      | none => rw [hd] at h; exact Bool.noConfusion h
      | some r => exact ⟨[], r, (@dropExact_some pat [] r).1 hd⟩
    · rintro ⟨l1, l2, h⟩
      have h1 := (List.append_eq_nil).1 h.symm
      have h2 := (List.append_eq_nil).1 h1.2
      rw [h2.1]
      rfl
  | cons c t ih =>
    show ((dropExact pat (c :: t)).isSome || litFound pat t) = true ↔ _
    constructor
    · intro h
      rw [Bool.or_eq_true] at h
      rcases h with h | h
      · cases hd : dropExact pat (c :: t) with
        | none => rw [hd] at h; exact Bool.noConfusion h
        | some r => exact ⟨[], r, (@dropExact_some pat (c :: t) r).1 hd⟩
      · rcases ih.1 h with ⟨l1, l2, he⟩
        exact ⟨c :: l1, l2, by rw [he, List.cons_append]⟩
    · rintro ⟨l1, l2, he⟩
      rw [Bool.or_eq_true]
      cases l1 with
      | nil =>
        left
        rw [(@dropExact_some pat (c :: t) l2).2 he]
        rfl
      | cons a l1t =>
        right
        injection he with h1 h2
        exact ih.2 ⟨l1t, l2, h2⟩

theorem litFound_append_left {pat l1 l2 : List Char} (h : litFound pat l1 = true) :
    litFound pat (l1 ++ l2) = true := by
  rcases litFound_iff.1 h with ⟨a, b, he⟩
  refine litFound_iff.2 ⟨a, b ++ l2, ?_⟩
  rw [he]
  simp

theorem litFound_append_right {pat l1 l2 : List Char} (h : litFound pat l2 = true) :
    litFound pat (l1 ++ l2) = true := by
  rcases litFound_iff.1 h with ⟨a, b, he⟩
  refine litFound_iff.2 ⟨l1 ++ a, b, ?_⟩
  rw [he]
  simp

theorem dropWhile_append_parts {p : Char → Bool} {pat b : List Char}
    (hpat : pat ≠ []) (hhd : ∀ c ∈ pat, p c = false) :
    ∀ a : List Char, ∃ a', List.dropWhile p (a ++ (pat ++ b)) = a' ++ (pat ++ b) := by
  intro a
  induction a with
  | nil =>
    cases pat with
    | nil => exact absurd rfl hpat
    | cons p0 pr =>
      have h0 : p p0 = false := hhd p0 (List.mem_cons_self p0 pr)
      refine ⟨[], ?_⟩
      show List.dropWhile p (p0 :: (pr ++ b)) = _
      rw [List.dropWhile_cons, h0]
      rfl
  | cons x a1 iha =>
    by_cases hx : p x = true
    · rw [List.cons_append, List.dropWhile_cons, hx]
      simpa using iha
    · rw [List.cons_append, List.dropWhile_cons, Bool.eq_false_iff.2 hx]
      exact ⟨x :: a1, rfl⟩

theorem litFound_dropWhile_left {p : Char → Bool} {pat cs : List Char}
    (h : litFound pat cs = true) (hne : pat ≠ []) (hns : ∀ c ∈ pat, p c = false) :
    litFound pat (cs.dropWhile p) = true := by
  rcases litFound_iff.1 h with ⟨a, b, he⟩
  subst he
  rcases dropWhile_append_parts hne hns a with ⟨a2, hd⟩
  rw [hd]
  exact litFound_iff.2 ⟨a2, b, rfl⟩

theorem litFound_reverse {pat cs : List Char} (h : litFound pat cs = true) :
    litFound pat.reverse cs.reverse = true := by
  rcases litFound_iff.1 h with ⟨a, b, he⟩
  subst he
  refine litFound_iff.2 ⟨b.reverse, a.reverse, ?_⟩
  simp

theorem litFound_stripChars {pat cs : List Char} (h : litFound pat cs = true)
    (hne : pat ≠ []) (hns : ∀ c ∈ pat, isPySpace c = false) :
    litFound pat (stripChars cs) = true := by
  unfold stripChars
  have h1 : litFound pat (cs.dropWhile isPySpace) = true :=
    litFound_dropWhile_left h hne hns
  have h2 := litFound_reverse h1
  have hne2 : pat.reverse ≠ [] := by simpa using hne
  have hns2 : ∀ c ∈ pat.reverse, isPySpace c = false :=
    fun c hc => hns c (List.mem_reverse.1 hc)
  have h3 := litFound_dropWhile_left h2 hne2 hns2
  have h4 := litFound_reverse h3
  rw [List.reverse_reverse] at h4
  exact h4

theorem litFound_go {pat : List Char} {sep : String} :
    ∀ (as : List String) (acc : String),
      (litFound pat acc.data = true ∨ ∃ l ∈ as, litFound pat l.data = true) →
      litFound pat (String.intercalate.go acc sep as).data = true := by
  intro as
  induction as with
  | nil =>
    intro acc h
    rcases h with h | ⟨l, hl, _⟩
    · exact h
    · exact absurd hl (List.not_mem_nil l)
  | cons a as1 ih =>
    intro acc h
    show litFound pat (String.intercalate.go (acc ++ sep ++ a) sep as1).data = true
    apply ih
    rcases h with h | ⟨l, hl, hf⟩
    · left
      show litFound pat ((acc ++ sep ++ a)).data = true
      rw [String.data_append, String.data_append]
      exact litFound_append_left (litFound_append_left h)
    · rcases List.mem_cons.1 hl with he | hm
      · subst he
        left
        show litFound pat ((acc ++ sep ++ l)).data = true
        rw [String.data_append]
        exact litFound_append_right hf
      · right
        exact ⟨l, hm, hf⟩

theorem litFound_intercalate {pat : List Char} {ll : List String} {l : String}
    (hl : l ∈ ll) (h : litFound pat l.data = true) :
    litFound pat (String.intercalate "\n" ll).data = true := by
  cases ll with
  | nil => exact absurd hl (List.not_mem_nil l)
  | cons a as =>
    show litFound pat (String.intercalate.go a "\n" as).data = true
    apply litFound_go
    rcases List.mem_cons.1 hl with he | hm
    · subst he
      exact Or.inl h
    · exact Or.inr ⟨l, hm, h⟩

/-! ## Renderer lemmas: populated busSeating forces 座席 into the text -/

theorem except_bind_ok {α β : Type} {e : Except String α} {f : α → Except String β} {b : β}
    (h : e >>= f = .ok b) : ∃ a, e = .ok a ∧ f a = .ok b := by
  cases e with
  | error m =>
    have h2 : (Except.error m : Except String β) = .ok b := h
    exact Except.noConfusion h2
  | ok a => exact ⟨a, rfl, h⟩

theorem except_pure_ok {α : Type} {a b : α}
    (h : (pure a : Except String α) = .ok b) : a = b := by
  have h2 : (Except.ok a : Except String α) = .ok b := h
  injection h2

theorem mapE_mem_left {α β : Type} {f : α → Except String β} :
    ∀ {xs : List α} {ys : List β}, mapE f xs = .ok ys → ∀ {x}, x ∈ xs →
      ∃ y ∈ ys, f x = .ok y := by
  intro xs
  induction xs with
  | nil => intro ys h x hx; exact absurd hx (List.not_mem_nil x)
  | cons a l ih =>
    intro ys h x hx
    unfold mapE at h
    cases hfa : f a with
    | error e => rw [hfa] at h; exact Except.noConfusion h
    | ok b =>
      rw [hfa] at h
      cases hml : mapE f l with
      | error e => rw [hml] at h; exact Except.noConfusion h
      | ok bs =>
        rw [hml] at h
        cases h
        rcases List.mem_cons.1 hx with he | hm
        · subst he
          exact ⟨b, List.mem_cons_self b bs, hfa⟩
        · rcases ih hml hm with ⟨y, hy, hfy⟩
          exact ⟨y, List.mem_cons_of_mem b hy, hfy⟩

theorem renderParticipant_busSeating {cnoS : String} {p : JVal} {ls : List String}
    (hr : renderParticipant cnoS p = .ok ls) (hb : hasBusSeating p = true) :
    ∃ l ∈ ls, litFound "座席".data l.data = true := by
  cases p with
  | obj kvs =>
    simp only [hasBusSeating] at hb
    simp only [renderParticipant] at hr
    obtain ⟨v1, -, hr⟩ := except_bind_ok hr
    obtain ⟨v2, -, hr⟩ := except_bind_ok hr
    obtain ⟨v3, -, hr⟩ := except_bind_ok hr
    obtain ⟨v4, -, hr⟩ := except_bind_ok hr
    obtain ⟨v5, -, hr⟩ := except_bind_ok hr
    obtain ⟨v6, -, hr⟩ := except_bind_ok hr
    obtain ⟨v7, -, hr⟩ := except_bind_ok hr
    obtain ⟨v8, -, hr⟩ := except_bind_ok hr
    obtain ⟨v9, -, hr⟩ := except_bind_ok hr
    obtain ⟨v10, -, hr⟩ := except_bind_ok hr
    obtain ⟨v11, -, hr⟩ := except_bind_ok hr
    obtain ⟨v12, -, hr⟩ := except_bind_ok hr
    obtain ⟨v13, -, hr⟩ := except_bind_ok hr
    obtain ⟨v14, -, hr⟩ := except_bind_ok hr
    obtain ⟨v15, -, hr⟩ := except_bind_ok hr
    obtain ⟨v16, -, hr⟩ := except_bind_ok hr
    obtain ⟨v17, -, hr⟩ := except_bind_ok hr
    obtain ⟨v18, -, hr⟩ := except_bind_ok hr
    obtain ⟨v19, -, hr⟩ := except_bind_ok hr
    obtain ⟨v20, -, hr⟩ := except_bind_ok hr
    obtain ⟨v21, -, hr⟩ := except_bind_ok hr
    have hls := except_pure_ok hr
    subst hls
    refine ⟨"- バス座席/グループ: " ++ pyStr ((lookupKV kvs "busSeating").getD JVal.null),
      ?_, ?_⟩
    · simp [hb, List.mem_append]
    · rw [String.data_append]
      exact litFound_append_left (by rfl)
  | null => exact Bool.noConfusion hb
  | bool b2 => exact Bool.noConfusion hb
  | int n => exact Bool.noConfusion hb
  | str s => exact Bool.noConfusion hb
  | arr xs => exact Bool.noConfusion hb

theorem renderCourse_busSeating {c : JVal} {ls : List String}
    (hr : renderCourse c = .ok ls) (hb : courseHasBusSeating c = true) :
    ∃ l ∈ ls, litFound "座席".data l.data = true := by
  cases c with
  | obj kvs =>
    simp only [courseHasBusSeating] at hb
    cases hl : lookupKV kvs "participants" with
    | none => rw [hl] at hb; exact Bool.noConfusion hb
    | some v =>
      rw [hl] at hb
      cases v with
      | arr ps =>
        have hb2 : ps.any hasBusSeating = true := hb
        simp only [renderCourse] at hr
        obtain ⟨w1, -, hr⟩ := except_bind_ok hr
        obtain ⟨w2, -, hr⟩ := except_bind_ok hr
        obtain ⟨elems, h3, hr⟩ := except_bind_ok hr
        obtain ⟨plss, h4, hr⟩ := except_bind_ok hr
        have hls := except_pure_ok hr
        subst hls
        rw [hl, Option.getD_some] at h3
        have h3b : (Except.ok ps : Except String (List JVal)) = .ok elems := h3
        cases h3b
        rcases List.any_eq_true.1 hb2 with ⟨p, hp, hbp⟩
        obtain ⟨lp, hlp, hrp⟩ := mapE_mem_left h4 hp
        rcases renderParticipant_busSeating hrp hbp with ⟨l, hl2, hfl⟩
        refine ⟨l, ?_, hfl⟩
        have hlf : l ∈ plss.flatten := List.mem_flatten.2 ⟨lp, hlp, hl2⟩
        simp [List.mem_append, hlf]
      | null => exact Bool.noConfusion hb
      | bool b2 => exact Bool.noConfusion hb
      | int n => exact Bool.noConfusion hb
      | str s => exact Bool.noConfusion hb
      | obj o => exact Bool.noConfusion hb
  | null => exact Bool.noConfusion hb
  | bool b2 => exact Bool.noConfusion hb
  | int n => exact Bool.noConfusion hb
  | str s => exact Bool.noConfusion hb
  | arr xs => exact Bool.noConfusion hb

theorem render_text_busSeating {d : JVal} {t : String}
    (hr : render_text d = .ok t) (hb : docHasBusSeating d = true) :
    containsSub "座席" t = true := by
  cases d with
  | obj kvs =>
    simp only [docHasBusSeating] at hb
    cases hl : lookupKV kvs "courses" with
    | none => rw [hl] at hb; exact Bool.noConfusion hb
    | some v =>
      rw [hl] at hb
      cases v with
      | arr cs =>
        have hb2 : cs.any courseHasBusSeating = true := hb
        rcases List.any_eq_true.1 hb2 with ⟨c, hc, hcb⟩
        have hne : cs ≠ [] := by
          intro h0
          subst h0
          exact absurd hc (List.not_mem_nil c)
        have htr : pyTruthy (.arr cs) = true := by
          cases cs with
          | nil => exact absurd rfl hne
          | cons a as => rfl
        simp only [render_text] at hr
        rw [hl, Option.getD_some, htr] at hr
        simp only [Bool.not_true] at hr
        rw [if_neg Bool.false_ne_true] at hr
        have hr3 : (match mapE renderCourse cs with
          | .error e => (.error e : Except String String)
          | .ok lss => .ok (pyStrip (String.intercalate "\n" lss.flatten))) = .ok t := hr
        cases hm : mapE renderCourse cs with
        | error e => rw [hm] at hr3; exact Except.noConfusion hr3
        | ok lss =>
          rw [hm] at hr3
          cases hr3
          obtain ⟨clines, hcl, hrc⟩ := mapE_mem_left hm hc
          rcases renderCourse_busSeating hrc hcb with ⟨l, hl2, hfl⟩
          have hlf : l ∈ lss.flatten := List.mem_flatten.2 ⟨clines, hcl, hl2⟩
          have h1 := litFound_intercalate hlf hfl
          show litFound "座席".data (stripChars (String.intercalate "\n" lss.flatten).data) = true
          exact litFound_stripChars h1 (by decide) (by decide)
      | null => exact Bool.noConfusion hb
      | bool b2 => exact Bool.noConfusion hb
      | int n => exact Bool.noConfusion hb
      | str s => exact Bool.noConfusion hb
      | obj o => exact Bool.noConfusion hb
  | null => exact Bool.noConfusion hb
  | bool b2 => exact Bool.noConfusion hb
  | int n => exact Bool.noConfusion hb
  | str s => exact Bool.noConfusion hb
  | arr xs => exact Bool.noConfusion hb

/-! ## Pipeline claims: the forbidden-term barrier (C1, C10) -/

theorem contains_ng_iff (text : String) :
    contains_ng_terms text = true ↔ find_all_ng_terms text ≠ [] := by
  have h : contains_ng_terms text = !(find_all_ng_terms text).isEmpty := by
    unfold contains_ng_terms find_all_ng_terms
    exact any_eq_not_isEmpty NG_PATTERNS _ ngGroup0
  rw [h]
  cases hfa : find_all_ng_terms text <;> simp

theorem process_text_ok_inv {e : CourseBlock → Except String JVal}
    {r : CourseBlock → JVal → Except String JVal}
    {check : JVal → Bool} {loaded : Bool} {raw : String} {t : String}
    (h : process_text e r check loaded raw = .ok t) :
    ∃ courses reviews,
      runBlocks e r check loaded 0 (find_course_blocks (normalize_lines raw)) =
        .ok (courses, reviews) ∧
      render_text (.obj [("courses", .arr courses)]) = .ok t ∧
      contains_ng_terms t = false := by
  simp only [process_text] at h
  cases hrb : runBlocks e r check loaded 0 (find_course_blocks (normalize_lines raw)) with
  | error m => rw [hrb] at h; exact Except.noConfusion h
  | ok pr =>
    obtain ⟨courses, reviews⟩ := pr
    rw [hrb] at h
    have h2 : (match render_text (.obj [("courses", .arr courses)]) with
      | .error m => (.error m : Except String String)
      | .ok text =>
        if contains_ng_terms text then .error (ngMessage (find_all_ng_terms text))
        else match printReviewReport reviews with
          | .error m => .error m
          | .ok _ => .ok text) = .ok t := h
    cases hrt : render_text (.obj [("courses", .arr courses)]) with
    | error m => rw [hrt] at h2; exact Except.noConfusion h2
    | ok text =>
      rw [hrt] at h2
      have h3 : (if contains_ng_terms text then
          (.error (ngMessage (find_all_ng_terms text)) : Except String String)
        else match printReviewReport reviews with
          | .error m => .error m
          | .ok _ => .ok text) = .ok t := h2
      by_cases hng : contains_ng_terms text = true
      · rw [if_pos hng] at h3
        exact Except.noConfusion h3
      · rw [if_neg hng] at h3
        cases hpr : printReviewReport reviews with
        | error m => rw [hpr] at h3; exact Except.noConfusion h3
        | ok u =>
          rw [hpr] at h3
          cases h3
          exact ⟨courses, reviews, rfl, hrt, Bool.eq_false_iff.2 hng⟩

/-- C1: the final forbidden-term barrier is fatal: once the per-block loop
and the renderer have produced the output text, if that text matches any
forbidden pattern then process_text raises (returns the SystemExit error
listing the matched terms, with the matched-term list non-empty) and never
returns that or any text; in particular 座席 anywhere in the rendered text
trips the barrier and is listed. -/
theorem claim_C1 (e : CourseBlock → Except String JVal)
    (r : CourseBlock → JVal → Except String JVal)
    (check : JVal → Bool) (loaded : Bool) (raw : String)
    (courses : List JVal) (reviews : List (String × JVal)) (text : String)
    (hrb : runBlocks e r check loaded 0 (find_course_blocks (normalize_lines raw)) =
      .ok (courses, reviews))
    (hrt : render_text (.obj [("courses", .arr courses)]) = .ok text)
    (hng : contains_ng_terms text = true) :
    process_text e r check loaded raw = .error (ngMessage (find_all_ng_terms text)) ∧
    find_all_ng_terms text ≠ [] ∧
    (∀ t2, process_text e r check loaded raw ≠ .ok t2) ∧
    (containsSub "座席" text = true → "座席" ∈ find_all_ng_terms text) := by
  have hpt : process_text e r check loaded raw =
      .error (ngMessage (find_all_ng_terms text)) := by
    simp only [process_text]
    rw [hrb]
    show (match render_text (.obj [("courses", .arr courses)]) with
      | .error m => (.error m : Except String String)
      | .ok text =>
        if contains_ng_terms text then .error (ngMessage (find_all_ng_terms text))
        else match printReviewReport reviews with
          | .error m => .error m
          | .ok _ => .ok text) = _
    rw [hrt]
    show (if contains_ng_terms text then
        (.error (ngMessage (find_all_ng_terms text)) : Except String String)
      else match printReviewReport reviews with
        | .error m => .error m
        | .ok _ => .ok text) = _
    rw [if_pos hng]
  refine ⟨hpt, (contains_ng_iff text).1 hng, ?_, ?_⟩
  · intro t2 hk
    rw [hpt] at hk
    exact Except.noConfusion hk
  · intro hsub
    unfold containsSub at hsub
    unfold find_all_ng_terms NG_PATTERNS
    simp only [List.filter_cons, ngSearch, hsub]
    simp [ngGroup0]

/-- C10: the busSeating render label itself contains the forbidden term
座席, so any successfully rendered text of a document with a populated
busSeating matches the forbidden patterns, and a pipeline run whose
aggregated course list carries a populated busSeating can never return
successfully. -/
theorem claim_C10 :
    containsSub "座席" "- バス座席/グループ: " = true ∧
    (∀ (d : JVal) (t : String), render_text d = .ok t → docHasBusSeating d = true →
      contains_ng_terms t = true) ∧
    (∀ (e : CourseBlock → Except String JVal)
      (r : CourseBlock → JVal → Except String JVal)
      (check : JVal → Bool) (loaded : Bool) (raw : String)
      (courses : List JVal) (reviews : List (String × JVal)) (t : String),
      runBlocks e r check loaded 0 (find_course_blocks (normalize_lines raw)) =
        .ok (courses, reviews) →
      courses.any courseHasBusSeating = true →
      process_text e r check loaded raw ≠ .ok t) := by
  refine ⟨rfl, ?_, ?_⟩
  · intro d t hr hb
    have h := render_text_busSeating hr hb
    unfold containsSub at h
    unfold contains_ng_terms NG_PATTERNS
    simp only [List.any_cons, ngSearch, h]
    simp
  · intro e r check loaded raw courses reviews t hrb hbus hok
    obtain ⟨cs2, rv2, hrb2, hrt2, hng2⟩ := process_text_ok_inv hok
    rw [hrb] at hrb2
    injection hrb2 with hp
    injection hp with h1 h2
    subst h1
    have hdb : docHasBusSeating (.obj [("courses", .arr courses)]) = true := by
      show courses.any courseHasBusSeating = true
      exact hbus
    have hc := render_text_busSeating hrt2 hdb
    unfold containsSub at hc
    have hcn : contains_ng_terms t = true := by
      unfold contains_ng_terms NG_PATTERNS
      simp only [List.any_cons, ngSearch, hc]
      simp
    rw [hcn] at hng2
    exact Bool.noConfusion hng2

/-- Witness for C1: a concrete run whose rendered text contains 座席; the
pipeline cannot return it. -/
theorem claim_C1_witness :
    process_text
      (fun _ => .ok (.obj [("courses", .arr [.obj [("courseNo", .str "A1"),
        ("participants", .arr [.obj [("roomingRQ", .arr [.str "座席希望"])]])]])]))
      (fun _ _ => .ok (.obj [("ok", .bool true)]))
      (fun _ => true) false "コースNo: A1" ≠ .ok "" :=
  (claim_C1
    (fun _ => .ok (.obj [("courses", .arr [.obj [("courseNo", .str "A1"),
      ("participants", .arr [.obj [("roomingRQ", .arr [.str "座席希望"])]])]])]))
    (fun _ _ => .ok (.obj [("ok", .bool true)]))
    (fun _ => true) false "コースNo: A1"
    [.obj [("courseNo", .str "A1"),
      ("participants", .arr [.obj [("roomingRQ", .arr [.str "座席希望"])]])]]
    [("A1", .obj [("ok", .bool true)])]
    "ツアー情報:\n- コースNo: A1 / 期間: –\n\n参加者（該当のみ）:\nA1 No.  / （問番:）\n- ルーミング要望: 座席希望"
    rfl rfl rfl).2.2.1 ""

/-- Witness for C10: a concrete run whose extracted course carries a
populated busSeating; the pipeline cannot return successfully. -/
theorem claim_C10_witness :
    process_text
      (fun _ => .ok (.obj [("courses", .arr [.obj [("courseNo", .str "A1"),
        ("participants", .arr [.obj [("busSeating", .str "前方希望")]])]])]))
      (fun _ _ => .ok (.obj [("ok", .bool true)]))
      (fun _ => true) false "コースNo: A1" ≠ .ok "x" :=
  claim_C10.2.2
    (fun _ => .ok (.obj [("courses", .arr [.obj [("courseNo", .str "A1"),
      ("participants", .arr [.obj [("busSeating", .str "前方希望")]])]])]))
    (fun _ _ => .ok (.obj [("ok", .bool true)]))
    (fun _ => true) false "コースNo: A1"
    [.obj [("courseNo", .str "A1"),
      ("participants", .arr [.obj [("busSeating", .str "前方希望")]])]]
    [("A1", .obj [("ok", .bool true)])]
    "x" rfl rfl
